import Mathlib

/-!
# Flexer: a growing byte container (`src/src/flexer.c`, `src/src/flexer.h`)

Shallow embedding of the Flexer library and proofs about it.

Conventions of the embedding.

* `fl_size_t` is `uint64_t`: values are natural numbers below `2 ^ 64` and every
  addition, multiplication, subtraction and left shift of the source is taken
  modulo `2 ^ 64` (`add64`, `mul64`, `sub64`, `shl64`).
* `sizeof( fl_s )` is 24: the record has three 64-bit fields (LP64).
-/

namespace Flexer

/-! ## Machine arithmetic -/

/-- Modulus of `fl_size_t` (`uint64_t`). -/
def U64 : Nat := 2 ^ 64

/-- Addition of two `uint64_t` values. -/
def add64 (a b : Nat) : Nat := (a + b) % 2 ^ 64

/-- Subtraction of two `uint64_t` values (wraps below zero). -/
def sub64 (a b : Nat) : Nat := (a + 2 ^ 64 - b) % 2 ^ 64

/-- Multiplication of two `uint64_t` values. -/
def mul64 (a b : Nat) : Nat := (a * b) % 2 ^ 64

/-- Left shift of a `uint64_t` value. -/
def shl64 (a k : Nat) : Nat := (a <<< k) % 2 ^ 64

/-! ## Constants and macros (`flexer.h`, `flexer.c` lines 22-28) -/

/-- Macro `#define FL_DEFAULT_SIZE 16`. -/
def FL_DEFAULT_SIZE : Nat := 16

/-- Macro `#define FL_MIN_SIZE 2`. -/
def FL_MIN_SIZE : Nat := 2

/-- Value of `sizeof( fl_s )`: three 64-bit fields. -/
def sizeof_fl_s : Nat := 24

/-- Macro `#define fl_smsk 0xFFFFFFFFFFFFFFFEL`. -/
def fl_smsk : Nat := 0xFFFFFFFFFFFFFFFE

/-- Macro `#define fl_snor(size) (((size) & 0x1L) ? (size) + 1 : (size))`. -/
def fl_snor (size : Nat) : Nat :=
  if size &&& 0x1 ≠ 0 then add64 size 1 else size

/-! ## Size policy (`flexer.c` lines 371-401) -/

/-- Function `fl_align_size`: align reservation size for 4k and bigger. -/
def fl_align_size (new_size : Nat) : Nat :=
  if new_size ≥ 4096 then
    if new_size = 4096 then
      4096 - sizeof_fl_s
    else
      sub64 (shl64 ((new_size >>> 12) + 1) 12) sizeof_fl_s
  else
    new_size

/-- Function `fl_legal_size`: convert size to a legal Flexer size. -/
def fl_legal_size (size : Nat) : Nat :=
  let size := fl_snor size
  let size := if size < FL_MIN_SIZE then FL_MIN_SIZE else size
  fl_align_size size

/-- The size handed to `fl_align_size` by `fl_legal_size` (its first two statements). -/
def fl_norm_size (size : Nat) : Nat :=
  if fl_snor size < 2 then 2 else fl_snor size

/-! ## Memory and the allocator collaborator

Memory is a list of blocks. A pointer is a block number and a byte offset; block
number 0 is never allocated, so `NULL` is `⟨0, 0⟩`. Block `b > 0` is entry `b - 1`
of `Heap.blocks`; a released block is `none`. Caller memory (a stack array handed
to `fl_use`) is a block like any other.

The allocator is the default one of `flexer.h`: `fl_malloc( size )` is
`calloc( size, 1 )` (zero filled), `fl_realloc` is `realloc` (bytes past the old
length are indeterminate: they get the value `Heap.junk`), `fl_free` is `free`.
An allocation request fails when the head of `Heap.fails` is `true`.
`Heap.freed` logs the arguments of `fl_free`; `Heap.fault` records that an access
left its block or used a pointer that is not valid for the call. -/

/-- One byte of memory. -/
abbrev Byte := Nat

/-- A pointer (`fl_d`, `void*`): block number and offset. -/
structure Ptr where
  blk : Nat
  off : Nat
deriving DecidableEq, Repr

/-- The null pointer. -/
def NULL : Ptr := ⟨0, 0⟩

/-- Pointer arithmetic `(char*)p + k`. -/
def Ptr.add (p : Ptr) (k : Nat) : Ptr := ⟨p.blk, p.off + k⟩

/-- The memory together with the allocator state. -/
structure Heap where
  blocks : List (Option (List Byte))
  fails : List Bool
  junk : Byte
  freed : List Ptr
  fault : Bool
deriving DecidableEq, Repr

/-- Memory with no block, an allocator that never fails. -/
def Heap.empty : Heap := ⟨[], [], 0, [], false⟩

/-- Contents of block `b`, when it is live. -/
def Heap.block (h : Heap) (b : Nat) : Option (List Byte) :=
  if b = 0 then none else (h.blocks[b - 1]?).join

/-- Replace the contents of block `b`. -/
def Heap.setBlock (h : Heap) (b : Nat) (c : Option (List Byte)) : Heap :=
  { h with blocks := h.blocks.set (b - 1) c }

/-- Every allocation request of the future succeeds. -/
def Heap.noFail (h : Heap) : Prop := ∀ b ∈ h.fails, b = false

instance (h : Heap) : Decidable h.noFail := by
  unfold Heap.noFail; infer_instance

/-- Read `n` bytes at `p`; `none` when the range is not inside a live block. -/
def mem_read (h : Heap) (p : Ptr) (n : Nat) : Option (List Byte) :=
  if n = 0 then some []
  else
    match h.block p.blk with
    | some cs => if p.off + n ≤ cs.length then some ((cs.drop p.off).take n) else none
    | none => none

/-- Contents of a block `cs` after `bs` is stored at offset `off`: the bytes of `bs`
that land inside the block replace what was there, the block keeps its length. -/
def splice (cs : List Byte) (off : Nat) (bs : List Byte) : List Byte :=
  (cs.take off ++ bs ++ cs.drop (off + bs.length)).take cs.length

/-- Store `bs` at `p`. Bytes that fall outside the block are not stored and set
`fault`; so does a store through a pointer into no live block. -/
def mem_write (h : Heap) (p : Ptr) (bs : List Byte) : Heap :=
  if bs = [] then h
  else
    match h.block p.blk with
    | some cs =>
      { h.setBlock p.blk (some (splice cs p.off bs)) with
        fault := h.fault || !decide (p.off + bs.length ≤ cs.length) }
    | none => { h with fault := true }

/-- Library call `memset( p, v, n )`. -/
def memset (h : Heap) (p : Ptr) (v : Byte) (n : Nat) : Heap :=
  mem_write h p (List.replicate n v)

/-- Library call `memcpy( dst, item, n )` where `item` points to caller memory holding the
bytes `item`; reading more bytes than the item has is a fault. -/
def memcpy_item (h : Heap) (dst : Ptr) (item : List Byte) (n : Nat) : Heap :=
  if n ≤ item.length then mem_write h dst (item.take n)
  else { mem_write h dst item with fault := true }

/-- Library call `memcpy( dst, src, n )` between two places of the memory. -/
def memcpy (h : Heap) (dst src : Ptr) (n : Nat) : Heap :=
  match mem_read h src n with
  | some bs => mem_write h dst bs
  | none => { h with fault := true }

/-- Allocator call `fl_malloc( n )`, that is `calloc( n, 1 )`: a new zero-filled block, or `NULL`. -/
def fl_malloc (h : Heap) (n : Nat) : Heap × Ptr :=
  match h.fails with
  | true :: rest => ({ h with fails := rest }, NULL)
  | _ =>
    ({ h with blocks := h.blocks ++ [some (List.replicate n 0)], fails := h.fails.tail },
      ⟨h.blocks.length + 1, 0⟩)

/-- Allocator call `fl_realloc( p, n )`, that is `realloc`: with `p == NULL` a new block of
indeterminate bytes; otherwise the block of `p` resized in place, its first
`min(old, n)` bytes kept; `NULL` on failure, the old block untouched. A `p` that
is not the start of a live block is a fault. -/
def fl_realloc (h : Heap) (p : Ptr) (n : Nat) : Heap × Ptr :=
  if p = NULL then
    match h.fails with
    | true :: rest => ({ h with fails := rest }, NULL)
    | _ =>
      ({ h with blocks := h.blocks ++ [some (List.replicate n h.junk)],
                fails := h.fails.tail },
        ⟨h.blocks.length + 1, 0⟩)
  else
    match h.block p.blk with
    | some cs =>
      if p.off = 0 then
        match h.fails with
        | true :: rest => ({ h with fails := rest }, NULL)
        | _ =>
          ({ h.setBlock p.blk (some (cs.take n ++ List.replicate (n - cs.length) h.junk)) with
              fails := h.fails.tail }, p)
      else ({ h with fault := true }, NULL)
    | none => ({ h with fault := true }, NULL)

/-- Allocator call `fl_free( p )`, that is `free`: logs the call and releases the block. -/
def fl_free (h : Heap) (p : Ptr) : Heap :=
  if p = NULL then { h with freed := p :: h.freed }
  else
    match h.block p.blk with
    | some _ =>
      { h.setBlock p.blk none with
        freed := p :: h.freed, fault := h.fault || !decide (p.off = 0) }
    | none => { h with freed := p :: h.freed, fault := true }

/-! ## The descriptor (`flexer.h` lines 58-66)

A function of the source that dereferences its `fl_t` argument without testing it
takes the record `fl_s` it points to and returns the updated record; a function
that tests the pointer against `NULL` takes the pointer and the record. -/

/-- Record `struct fl_struct_s`: `size` holds the reservation size and, in its lowest
bit, the local flag. -/
structure fl_s where
  size : Nat
  used : Nat
  data : Ptr
deriving DecidableEq, Repr

/-- Type `fl_t`: pointer to a descriptor record. -/
abbrev fl_t := Ptr

/-- Macro `#define fl_local( fl ) ( (fl)->size & 0x1L )`. -/
def fl_local (fl : fl_s) : Nat := fl.size &&& 0x1

/-- Macro `#define fm_size( fl ) ( (fl)->size & fl_smsk )`. -/
def fm_size (fl : fl_s) : Nat := fl.size &&& fl_smsk

/-- Function `fl_set_local`. -/
def fl_set_local (fl : fl_s) (val : Nat) : fl_s :=
  if val ≠ 0 then { fl with size := fl.size ||| 0x1 }
  else { fl with size := fl.size &&& fl_smsk }

/-- Function `fl_get_local`. -/
def fl_get_local (fl : fl_s) : Nat := fl_local fl

/-- Function `fl_set_size`: set size without touching the local flag. -/
def fl_set_size (fl : fl_s) (size : Nat) : fl_s :=
  let lcl := fl_get_local fl
  let fl := { fl with size := size }
  fl_set_local fl lcl

/-- Function `fl_set_size_and_local`. -/
def fl_set_size_and_local (fl : fl_s) (size : Nat) (lcl : Nat) : fl_s :=
  let fl := { fl with size := size }
  fl_set_local fl lcl

/-- Function `fl_init`. -/
def fl_init (fl : fl_s) (size : Nat) (data : Ptr) (lcl : Nat) : fl_s :=
  let fl := fl_set_size_and_local fl size lcl
  let fl := { fl with used := 0 }
  { fl with data := data }

/-! ## Queries (`flexer.c` lines 211-290) -/

/-- Function `fl_used`. -/
def fl_used (fl : fl_s) : Nat := fl.used

/-- Function `fl_size`. -/
def fl_size (fl : fl_s) : Nat := fm_size fl

/-- Function `fl_data`. -/
def fl_data (fl : fl_s) : Ptr := fl.data

/-- Macro `#define fl_true 1`. -/
def fl_true : Nat := 1

/-- Macro `#define fl_false 0`. -/
def fl_false : Nat := 0

/-- Function `fl_is_empty`. -/
def fl_is_empty (fl : fl_s) : Nat :=
  if fl.data = NULL then fl_false
  else if fl.used = 0 then fl_true else fl_false

/-- Function `fl_is_full`. -/
def fl_is_full (fl : fl_s) : Nat :=
  if fl.data = NULL then fl_false
  else if fl.used ≥ fm_size fl then fl_true else fl_false

/-! ## Create (`flexer.c` lines 49-91, 308-314) -/

/-- Function `fl_allocate_descriptor_if`: allocate a descriptor record if `fl` is `NULL`. -/
def fl_allocate_descriptor_if (h : Heap) (fl : fl_t) : Heap × fl_t :=
  if fl = NULL then fl_malloc h sizeof_fl_s else (h, fl)

/-- Lines 63-64 of `fl_new_sized`, run once the descriptor pointer is known not to
be `NULL`: `size = fl_legal_size( size ); fl_init( fl, size, fl_malloc( size ), 0 );`.
The record `rec` is the one `fl` points to. -/
def fl_new_sized_init (h : Heap) (rec : fl_s) (size : Nat) : Heap × fl_s :=
  let size := fl_legal_size size
  let (h1, p) := fl_malloc h size
  (h1, fl_init rec size p 0)

/-- Function `fl_new_sized`. Returns the pointer and the record it points to (the
record given when the pointer comes back `NULL`). A record allocated here starts
zero filled. -/
def fl_new_sized (h : Heap) (fl : fl_t) (rec : fl_s) (size : Nat) : Heap × fl_t × fl_s :=
  let (h1, fl1) := fl_allocate_descriptor_if h fl
  if fl1 = NULL then (h1, fl1, rec)
  else
    let rec1 := if fl = NULL then (⟨0, 0, NULL⟩ : fl_s) else rec
    let (h2, rec2) := fl_new_sized_init h1 rec1 size
    (h2, fl1, rec2)

/-- Function `fl_new`. -/
def fl_new (h : Heap) (fl : fl_t) (rec : fl_s) : Heap × fl_t × fl_s :=
  fl_new_sized h fl rec FL_DEFAULT_SIZE

/-- Function `fl_new_descriptor`. -/
def fl_new_descriptor (h : Heap) (fl : fl_t) (rec : fl_s) : Heap × fl_t × fl_s :=
  let (h1, fl1) := fl_allocate_descriptor_if h fl
  if fl1 = NULL then (h1, fl1, rec)
  else
    let rec1 := if fl = NULL then (⟨0, 0, NULL⟩ : fl_s) else rec
    let rec1 := { rec1 with size := 0 }
    let rec1 := { rec1 with used := 0 }
    let rec1 := { rec1 with data := NULL }
    (h1, fl1, rec1)

/-- Function `fl_use`: `none` is the failed assertion `size >= FL_MIN_SIZE`. -/
def fl_use (h : Heap) (fl : fl_s) (mem : Ptr) (size : Nat) : Option (Heap × fl_s) :=
  if size ≥ FL_MIN_SIZE then
    let fl := fl_init fl size mem 1
    let h1 := memset h fl.data 0 size
    some (h1, fl)
  else none

/-! ## Resize (`flexer.c` lines 120-125, 410-432) -/

/-- Function `fl_resize_to`. -/
def fl_resize_to (h : Heap) (fl : fl_s) (new_size : Nat) : Heap × fl_s :=
  let (h1, fl1) :=
    if fl_get_local fl ≠ 0 then
      let (h1, p) := fl_malloc h new_size
      (h1, { fl with data := p })
    else
      let old_size := fm_size fl
      let (h1, p) := fl_realloc h fl.data new_size
      let fl1 := { fl with data := p }
      if new_size > old_size then
        (memset h1 (fl1.data.add old_size) 0 (sub64 new_size old_size), fl1)
      else (h1, fl1)
  let fl2 := { fl1 with size := new_size }
  (h1, fl_set_local fl2 0)

/-- Function `fl_resize`. -/
def fl_resize (h : Heap) (fl : fl_s) (new_size : Nat) : Heap × fl_s :=
  let new_size := fl_legal_size new_size
  if new_size ≥ fl.used then fl_resize_to h fl new_size else (h, fl)

/-! ## Data operations (`flexer.c` lines 128-204) -/

/-- Function `fl_add`. The item pointer is given by the bytes it points to. -/
def fl_add (h : Heap) (fl : fl_s) (item : List Byte) (size : Nat) : Heap × fl_s :=
  let (h1, fl1) :=
    if add64 fl.used size > fm_size fl then fl_resize h fl (mul64 (fm_size fl) 2)
    else (h, fl)
  let h2 := memcpy_item h1 (fl1.data.add fl1.used) item size
  (h2, { fl1 with used := add64 fl1.used size })

/-- Function `fl_push`. -/
def fl_push (h : Heap) (fl : fl_s) (item : List Byte) (size : Nat) : Heap × fl_s :=
  let (h0, fl0) :=
    if fl.data = NULL then fl_new_sized_init h fl FL_DEFAULT_SIZE else (h, fl)
  let (h1, fl1) :=
    if add64 fl0.used size > fm_size fl0 then fl_resize h0 fl0 (mul64 (fm_size fl0) 2)
    else (h0, fl0)
  let h2 := memcpy_item h1 (fl1.data.add fl1.used) item size
  (h2, { fl1 with used := add64 fl1.used size })

/-- Function `fl_pop`: the memory is not touched. -/
def fl_pop (h : Heap) (fl : fl_s) (size : Nat) : Heap × fl_s × Ptr :=
  if size ≤ fl.used then
    let fl1 := { fl with used := sub64 fl.used size }
    (h, fl1, fl1.data.add fl1.used)
  else (h, fl, NULL)

/-- Function `fl_alloc`. -/
def fl_alloc (h : Heap) (fl : fl_s) (size : Nat) : Heap × fl_s × Ptr :=
  let (h1, fl1) :=
    if add64 fl.used size > fm_size fl then fl_resize h fl (mul64 (fm_size fl) 2)
    else (h, fl)
  let ret := fl1.data.add fl1.used
  (h1, { fl1 with used := add64 fl1.used size }, ret)

/-- Function `fl_reset`. -/
def fl_reset (h : Heap) (fl : fl_s) : Heap × fl_s :=
  (h, { fl with used := 0 })

/-- Function `fl_clear`. -/
def fl_clear (h : Heap) (fl : fl_s) : Heap × fl_s :=
  let fl1 := { fl with used := 0 }
  (memset h fl1.data 0 (fm_size fl1), fl1)

/-- Function `fl_duplicate`: `dup` is a local record, so `fl_new_sized( &dup, .. )`
runs with a pointer that is not `NULL`; the fields of `dup` start indeterminate
and are all set by `fl_init`. -/
def fl_duplicate (h : Heap) (fl : fl_s) : Heap × fl_s :=
  let (h1, dup) := fl_new_sized_init h ⟨h.junk, h.junk, NULL⟩ (fm_size fl)
  let dup := { dup with used := fl.used }
  let h2 := memcpy h1 dup.data fl.data fl.used
  (h2, dup)

/-- A sequence of `fl_push` calls, each with its item and size. -/
def fl_push_all (h : Heap) (fl : fl_s) (items : List (List Byte × Nat)) : Heap × fl_s :=
  items.foldl (fun s it => fl_push s.1 s.2 it.1 it.2) (h, fl)

/-- A sequence of `fl_add` calls, each with its item and size. -/
def fl_add_all (h : Heap) (fl : fl_s) (items : List (List Byte × Nat)) : Heap × fl_s :=
  items.foldl (fun s it => fl_add s.1 s.2 it.1 it.2) (h, fl)

/-! ## Destroy (`flexer.c` lines 94-117) -/

/-- Function `fl_destroy_storage`. Takes the descriptor pointer, tested against
`NULL`, and the record it points to. -/
def fl_destroy_storage (h : Heap) (fl : fl_t) (rec : fl_s) : Heap × fl_s :=
  if fl = NULL then (h, rec)
  else
    let h1 := if rec.data ≠ NULL ∧ fl_local rec = 0 then fl_free h rec.data else h
    let rec1 := { rec with data := NULL }
    (h1, fl_set_size rec1 0)

/-- Function `fl_destroy`. Returns the memory, the returned pointer and the record as
`fl_destroy_storage` left it (the record itself has been handed to `fl_free`). -/
def fl_destroy (h : Heap) (fl : fl_t) (rec : fl_s) : Heap × fl_t × fl_s :=
  if fl ≠ NULL then
    let (h1, rec1) := fl_destroy_storage h fl rec
    (fl_free h1 fl, NULL, rec1)
  else (h, NULL, rec)

/-! ## Sequences of operations on one descriptor -/

/-- One call on a descriptor, `fl_set_local` excluded. -/
inductive fl_op where
  | push (item : List Byte) (size : Nat)
  | add (item : List Byte) (size : Nat)
  | alloc (size : Nat)
  | pop (size : Nat)
  | reset
  | clear
  | resize (new_size : Nat)

/-- Run one call. -/
def fl_step (h : Heap) (fl : fl_s) : fl_op → Heap × fl_s
  | .push item size => fl_push h fl item size
  | .add item size => fl_add h fl item size
  | .alloc size => ((fl_alloc h fl size).1, (fl_alloc h fl size).2.1)
  | .pop size => ((fl_pop h fl size).1, (fl_pop h fl size).2.1)
  | .reset => fl_reset h fl
  | .clear => fl_clear h fl
  | .resize new_size => fl_resize h fl new_size

/-- Run a sequence of calls. -/
def fl_run (h : Heap) (fl : fl_s) (ops : List fl_op) : Heap × fl_s :=
  ops.foldl (fun s op => fl_step s.1 s.2 op) (h, fl)

/-! ## The growth step shared by `fl_add`, `fl_push` and `fl_alloc` -/

/-- The growth step written out three times in the source (lines 130-132, 144-146,
171-173): `if ( fl->used + size > fm_size( fl ) ) fl_resize( fl, fm_size( fl ) * 2 );`. -/
def fl_grow (h : Heap) (fl : fl_s) (size : Nat) : Heap × fl_s :=
  if add64 fl.used size > fm_size fl then fl_resize h fl (mul64 (fm_size fl) 2) else (h, fl)

/-- The lazy creation at the head of `fl_push` (lines 140-142). -/
def fl_push_new (h : Heap) (fl : fl_s) : Heap × fl_s :=
  if fl.data = NULL then fl_new_sized_init h fl FL_DEFAULT_SIZE else (h, fl)

/-! ## Predicates used in the statements -/

/-- The descriptor is not local and its `data` is the start of a live block, as
after a successful `fl_new`, `fl_new_sized` or growth. -/
def fl_owned (h : Heap) (fl : fl_s) : Prop :=
  fl_get_local fl = 0 ∧ fl.data ≠ NULL ∧ fl.data.off = 0 ∧ (h.block fl.data.blk).isSome = true

/-- The descriptor is fresh from `fl_new_descriptor`, or owns a block: the states
that `fl_push` is documented for. -/
def fl_pushable (h : Heap) (fl : fl_s) : Prop :=
  (fl_get_local fl = 0 ∧ fl.data = NULL ∧ fl.used = 0) ∨ fl_owned h fl

/-- The `data` field is a pointer that `fl_resize_to` may hand to `fl_realloc`
(`NULL` or the start of a live block); nothing is asked of a local descriptor,
whose `data` is not handed over. -/
def fl_data_valid (h : Heap) (fl : fl_s) : Prop :=
  fl_get_local fl = 0 →
    fl.data = NULL ∨ (fl.data.off = 0 ∧ (h.block fl.data.blk).isSome = true)

/-- No block of the memory is as large as `2 ^ 63` bytes (no object is larger
than `PTRDIFF_MAX`). -/
def Heap.sizes_ok (h : Heap) : Prop :=
  ∀ o ∈ h.blocks, ∀ cs ∈ o, List.length cs < 2 ^ 63

/-- The `fl_size` bytes at `data` lie inside a live block: the descriptor has the
memory region it was given by `fl_use` (or got from the allocator). -/
def fl_region (h : Heap) (fl : fl_s) : Prop :=
  ∃ cs, h.block fl.data.blk = some cs ∧ fl.data.off + fm_size fl ≤ cs.length

/-- The descriptor keeps clear of the caller memory `mem`: either it is still local
on `mem`, or it is not local and its `data` lies in another block (or is `NULL`);
`mem` lies in a block of the memory, and `frd` is the log of `fl_free` calls. -/
def fl_apart (mem : Ptr) (frd : List Ptr) (h : Heap) (fl : fl_s) : Prop :=
  h.freed = frd ∧ mem.blk ≠ 0 ∧ mem.blk ≤ h.blocks.length ∧
    ((fl_get_local fl ≠ 0 ∧ fl.data = mem) ∨ (fl_get_local fl = 0 ∧ fl.data.blk ≠ mem.blk))

/-! ## Concrete memories used in the examples -/

/-- Caller memory holding one array of 4096 bytes (block 1), not yet initialised. -/
def page_mem : Heap := ⟨[some (List.replicate 4096 9)], [], 0, [], false⟩

/-- A local descriptor made by `fl_use` over the array of `page_mem` and filled by
one `fl_push` of 4096 bytes. -/
def page_full : Option (Heap × fl_s) :=
  (fl_use page_mem ⟨0, 0, NULL⟩ ⟨1, 0⟩ 4096).map
    (fun s => fl_push s.1 s.2 (List.replicate 4096 7) 4096)

/-- The duplicate of `page_full`, with the memory after `fl_duplicate`. -/
def page_dup : Option (Heap × fl_s) :=
  page_full.map (fun q => fl_duplicate q.1 q.2)

/-- Caller memory holding the 24 bytes of one descriptor record `fl_s fs` (block 1),
so that `&fs` is the pointer `⟨1, 0⟩`. -/
def slot_mem : Heap := ⟨[some (List.replicate 24 9)], [], 0, [], false⟩

/-- Caller memory holding one array of 16 bytes (block 1). -/
def small_mem : Heap := ⟨[some (List.replicate 16 9)], [], 7, [], false⟩

/-- A local descriptor made by `fl_use` over the array of `small_mem`, after one
`fl_push` of the ten bytes 1..10 (which fit). -/
def local_ten : Option (Heap × fl_s) :=
  (fl_use small_mem ⟨0, 0, NULL⟩ ⟨1, 0⟩ 16).map
    (fun s => fl_push s.1 s.2 [1, 2, 3, 4, 5, 6, 7, 8, 9, 10] 10)

/-- The descriptor `local_ten` after a second `fl_push` of ten bytes, which grows. -/
def local_grown : Option (Heap × fl_s) :=
  local_ten.map (fun q => fl_push q.1 q.2 [11, 12, 13, 14, 15, 16, 17, 18, 19, 20] 10)

/-- A descriptor from `fl_new_sized( NULL, 2048 )` filled by one `fl_push` of 2048
bytes. -/
def half_page : Heap × fl_s :=
  fl_push (fl_new_sized Heap.empty NULL ⟨0, 0, NULL⟩ 2048).1
    (fl_new_sized Heap.empty NULL ⟨0, 0, NULL⟩ 2048).2.2 (List.replicate 2048 7) 2048

/-- The descriptor `half_page` after a second `fl_push` of 2048 bytes. -/
def half_page_grown : Heap × fl_s :=
  fl_push half_page.1 half_page.2 (List.replicate 2048 8) 2048

/-! ## Arithmetic facts about the size policy -/

theorem fl_snor_eq (size : Nat) :
    fl_snor size = if size % 2 = 1 then (size + 1) % 18446744073709551616 else size := by
  unfold fl_snor add64
  rw [Nat.and_one_is_mod]
  rcases Nat.mod_two_eq_zero_or_one size with h | h <;> simp [h]

theorem fl_align_size_eq (n : Nat) :
    fl_align_size n =
      if 4096 ≤ n then
        if n = 4096 then 4072
        else (((n / 4096 + 1) * 4096) % 18446744073709551616
                + 18446744073709551616 - 24) % 18446744073709551616
      else n := by
  unfold fl_align_size sub64 shl64 sizeof_fl_s
  simp only [Nat.shiftRight_eq_div_pow, Nat.shiftLeft_eq, ge_iff_le]
  norm_num

theorem fl_legal_size_eq (size : Nat) :
    fl_legal_size size =
      fl_align_size (if fl_snor size < 2 then 2 else fl_snor size) := by
  unfold fl_legal_size FL_MIN_SIZE
  rfl

theorem fl_legal_size_norm (size : Nat) :
    fl_legal_size size = fl_align_size (fl_norm_size size) :=
  fl_legal_size_eq size

theorem fl_norm_size_spec (size : Nat) (hsize : size < 18446744073709551616) :
    fl_norm_size size % 2 = 0 ∧ 2 ≤ fl_norm_size size ∧
      fl_norm_size size < 18446744073709551616 := by
  simp only [fl_norm_size, fl_snor_eq]
  split_ifs <;> omega

theorem fl_norm_size_of_even (n : Nat) (he : n % 2 = 0) (h2 : 2 ≤ n) :
    fl_norm_size n = n := by
  simp only [fl_norm_size, fl_snor_eq]
  split_ifs <;> omega

theorem fl_align_size_spec (m : Nat) (he : m % 2 = 0) (h2 : 2 ≤ m)
    (hm : m < 18446744073709551616) :
    fl_align_size m % 2 = 0 ∧ 2 ≤ fl_align_size m ∧
      fl_align_size m < 18446744073709551616 := by
  simp only [fl_align_size_eq]
  split_ifs <;> omega

theorem fl_align_size_idem (m : Nat) (hm : m < 18446744073709551616) :
    fl_align_size (fl_align_size m) = fl_align_size m := by
  have key : ∀ k, k = fl_align_size m → fl_align_size k = k := by
    intro k hk
    rw [fl_align_size_eq] at hk
    rw [fl_align_size_eq]
    split_ifs at hk ⊢ <;> omega
  exact key _ rfl

theorem fl_legal_size_of_even (n : Nat) (he : n % 2 = 0) (h2 : 2 ≤ n) :
    fl_legal_size n = fl_align_size n := by
  rw [fl_legal_size_norm, fl_norm_size_of_even n he h2]

/-- C9. For every 64-bit size, `fl_legal_size size` is even, at least 2, and
`fl_legal_size` is idempotent (`flexer.c` lines 371-401, arithmetic modulo `2 ^ 64`). -/
theorem fl_legal_size_even_min_idempotent (size : Nat) (hsize : size < 2 ^ 64) :
    fl_legal_size size % 2 = 0 ∧ 2 ≤ fl_legal_size size ∧
      fl_legal_size (fl_legal_size size) = fl_legal_size size := by
  have hsize2 : size < 18446744073709551616 := by norm_num at hsize; exact hsize
  obtain ⟨he, h2, hlt⟩ := fl_norm_size_spec size hsize2
  obtain ⟨ae, a2, _⟩ := fl_align_size_spec _ he h2 hlt
  rw [fl_legal_size_norm]
  refine ⟨ae, a2, ?_⟩
  rw [fl_legal_size_of_even _ ae a2]
  exact fl_align_size_idem _ hlt

/-- Witness for C9 at the request 4097 (odd, above one page). -/
theorem fl_legal_size_even_min_idempotent_witness :
    (4097 : Nat) < 2 ^ 64 ∧
      (fl_legal_size 4097 % 2 = 0 ∧ 2 ≤ fl_legal_size 4097 ∧
        fl_legal_size (fl_legal_size 4097) = fl_legal_size 4097) :=
  ⟨by norm_num, fl_legal_size_even_min_idempotent 4097 (by norm_num)⟩

/-! ## Facts about the flag bit -/

theorem and_smsk (x : Nat) : x &&& fl_smsk = 2 * ((x / 2) % 9223372036854775808) := by
  have hdiv : (x &&& fl_smsk) / 2 = (x / 2) % 9223372036854775808 := by
    rw [Nat.and_div_two]
    have hm : fl_smsk / 2 = 2 ^ 63 - 1 := by unfold fl_smsk; norm_num
    rw [hm, Nat.and_pow_two_sub_one_eq_mod]
  have hmod : (x &&& fl_smsk) % 2 = 0 := by
    rcases Nat.mod_two_eq_zero_or_one (x &&& fl_smsk) with h | h
    · exact h
    · rw [Nat.and_mod_two_eq_one] at h
      have : fl_smsk % 2 = 0 := by unfold fl_smsk; norm_num
      omega
  omega

theorem or_one (x : Nat) : x ||| 1 = 2 * (x / 2) + 1 := by
  have hdiv : (x ||| 1) / 2 = x / 2 := by
    rw [Nat.or_div_two]; simp
  have hmod : (x ||| 1) % 2 = 1 := by
    rw [Nat.or_mod_two_eq_one]; right; rfl
  omega

theorem fl_local_eq (fl : fl_s) : fl_local fl = fl.size % 2 := by
  unfold fl_local; exact Nat.and_one_is_mod _

theorem fm_size_eq (fl : fl_s) : fm_size fl = 2 * ((fl.size / 2) % 9223372036854775808) :=
  and_smsk _

theorem fm_size_of_even (fl : fl_s) (he : fl.size % 2 = 0)
    (hlt : fl.size < 18446744073709551616) : fm_size fl = fl.size := by
  rw [fm_size_eq]; omega

theorem fm_size_lt (fl : fl_s) : fm_size fl < 18446744073709551616 := by
  rw [fm_size_eq]; omega

theorem fm_size_even (fl : fl_s) : fm_size fl % 2 = 0 := by
  rw [fm_size_eq]; omega

theorem fl_set_local_zero_size (fl : fl_s) :
    (fl_set_local fl 0).size = 2 * ((fl.size / 2) % 9223372036854775808) := by
  simp [fl_set_local, and_smsk]

theorem fl_set_local_one_size (fl : fl_s) :
    (fl_set_local fl 1).size = 2 * (fl.size / 2) + 1 := by
  simp [fl_set_local, or_one]

/-! ## C10: the page policy of `fl_align_size` -/

/-- C10. With `sizeof( fl_s ) = 24`, `fl_align_size` returns a size below 4096
unchanged, returns `4096 - 24` for 4096, and for `4096 < size < 2 ^ 64 - 4096`
returns `M - 24` where `M` is the smallest multiple of 4096 strictly greater
than `size` (`flexer.c` lines 371-382). -/
theorem fl_align_size_page_policy (size : Nat) :
    sizeof_fl_s = 24 ∧
    (size < 4096 → fl_align_size size = size) ∧
    (size = 4096 → fl_align_size size = 4096 - sizeof_fl_s) ∧
    (4096 < size → size < 2 ^ 64 - 4096 →
      ∀ M : Nat, 4096 ∣ M → size < M → (∀ M' : Nat, 4096 ∣ M' → size < M' → M ≤ M') →
        fl_align_size size = M - sizeof_fl_s) := by
  refine ⟨rfl, ?_, ?_, ?_⟩
  · intro h
    rw [fl_align_size_eq]; split_ifs <;> omega
  · intro h
    rw [fl_align_size_eq]; unfold sizeof_fl_s; split_ifs <;> omega
  · intro h1 h2 M hM hlt hmin
    have h2 : size < 18446744073709547520 := by norm_num at h2; exact h2
    obtain ⟨k, rfl⟩ := hM
    have hle := hmin ((size / 4096 + 1) * 4096) ⟨size / 4096 + 1, by ring⟩ (by omega)
    rw [fl_align_size_eq]; unfold sizeof_fl_s
    split_ifs <;> omega

/-- Witness for C10 at the size 5000, whose next page boundary is 8192. -/
theorem fl_align_size_page_policy_witness :
    fl_align_size 100 = 100 ∧ fl_align_size 4096 = 4096 - sizeof_fl_s ∧
      fl_align_size 5000 = 8192 - sizeof_fl_s :=
  ⟨(fl_align_size_page_policy 100).2.1 (by norm_num),
   (fl_align_size_page_policy 4096).2.2.1 rfl,
   (fl_align_size_page_policy 5000).2.2.2 (by norm_num) (by norm_num) 8192
     ⟨2, by norm_num⟩ (by norm_num) (by
       intro M' hM' hlt
       obtain ⟨k, rfl⟩ := hM'
       omega)⟩

/-! ## C4: `fl_pop` -/

/-- C4. For a descriptor whose `used` is a 64-bit value: if `size <= used`,
`fl_pop` decreases `used` by exactly `size`, returns `data + (used - size)` and
leaves capacity, local flag, data pointer and the memory unchanged; if
`size > used` it returns `NULL` and changes nothing (`flexer.c` lines 152-160). -/
theorem fl_pop_spec (h : Heap) (fl : fl_s) (size : Nat) (hu : fl.used < 2 ^ 64) :
    (size ≤ fl.used →
      fl_used (fl_pop h fl size).2.1 = fl.used - size ∧
      (fl_pop h fl size).2.2 = fl.data.add (fl.used - size) ∧
      fl_size (fl_pop h fl size).2.1 = fl_size fl ∧
      fl_get_local (fl_pop h fl size).2.1 = fl_get_local fl ∧
      fl_data (fl_pop h fl size).2.1 = fl_data fl ∧
      (fl_pop h fl size).1 = h) ∧
    (fl.used < size → fl_pop h fl size = (h, fl, NULL)) := by
  have hu2 : fl.used < 18446744073709551616 := by norm_num at hu; exact hu
  constructor
  · intro hle
    have hsub : sub64 fl.used size = fl.used - size := by
      unfold sub64
      omega
    simp [fl_pop, hle, hsub, fl_used, fl_size, fm_size, fl_get_local, fl_local, fl_data]
  · intro hlt
    have : ¬ size ≤ fl.used := by omega
    simp [fl_pop, this]

/-- Witness for C4: five bytes used, three popped, then seven requested. -/
theorem fl_pop_spec_witness :
    fl_used (fl_pop Heap.empty ⟨16, 5, ⟨1, 0⟩⟩ 3).2.1 = 2 ∧
      (fl_pop Heap.empty ⟨16, 5, ⟨1, 0⟩⟩ 3).2.2 = ⟨1, 2⟩ ∧
      fl_pop Heap.empty ⟨16, 5, ⟨1, 0⟩⟩ 7 = (Heap.empty, ⟨16, 5, ⟨1, 0⟩⟩, NULL) :=
  ⟨((fl_pop_spec Heap.empty ⟨16, 5, ⟨1, 0⟩⟩ 3 (by norm_num)).1 (by norm_num)).1,
   ((fl_pop_spec Heap.empty ⟨16, 5, ⟨1, 0⟩⟩ 3 (by norm_num)).1 (by norm_num)).2.1,
   (fl_pop_spec Heap.empty ⟨16, 5, ⟨1, 0⟩⟩ 7 (by norm_num)).2 (by norm_num)⟩

/-! ## Facts about the memory -/

theorem splice_getElem? (cs bs : List Byte) (off j : Nat) :
    (splice cs off bs)[j]? =
      if j < cs.length then
        (if j < off then cs[j]?
         else if j < off + bs.length then bs[j - off]?
         else cs[j]?)
      else none := by
  unfold splice
  rw [List.getElem?_take]
  by_cases hj : j < cs.length
  · simp only [hj, if_true]
    by_cases h1 : j < off
    · simp only [h1, if_true]
      rw [List.append_assoc, List.getElem?_append_left (by simp; omega)]
      rw [List.getElem?_take]; simp [h1]
    · simp only [h1, if_false]
      have hlt : (cs.take off).length = off := by simp; omega
      by_cases h2 : j < off + bs.length
      · simp only [h2, if_true]
        rw [List.append_assoc, List.getElem?_append_right (by omega), hlt,
          List.getElem?_append_left (by omega)]
      · simp only [h2, if_false]
        rw [List.getElem?_append_right (by simp; omega), List.getElem?_drop]
        congr 1
        simp
        omega
  · simp [hj]

theorem splice_length (cs bs : List Byte) (off : Nat) :
    (splice cs off bs).length = cs.length := by
  unfold splice
  simp
  omega

theorem splice_read (cs bs : List Byte) (off : Nat) (hin : off + bs.length ≤ cs.length) :
    ((splice cs off bs).drop off).take bs.length = bs := by
  apply List.ext_getElem?
  intro j
  rw [List.getElem?_take, List.getElem?_drop, splice_getElem?]
  by_cases hj : j < bs.length
  · have h1 : off + j < cs.length := by omega
    have h3 : off + j < off + bs.length := by omega
    simp [hj, h1, h3]
  · simp only [hj, if_false]
    rw [List.getElem?_eq_none (by omega)]

theorem Heap.block_some {h : Heap} {b : Nat} {cs : List Byte} (hb : h.block b = some cs) :
    b ≠ 0 ∧ b - 1 < h.blocks.length := by
  unfold Heap.block at hb
  by_cases h0 : b = 0
  · simp [h0] at hb
  · refine ⟨h0, ?_⟩
    by_contra hlen
    rw [if_neg h0, List.getElem?_eq_none (by omega)] at hb
    simp at hb

theorem Heap.block_setBlock (h : Heap) (b b' : Nat) (v : Option (List Byte))
    (hb : b ≠ 0) (hlen : b - 1 < h.blocks.length) :
    (h.setBlock b v).block b' = if b' = b then v else h.block b' := by
  unfold Heap.block Heap.setBlock
  by_cases h0 : b' = 0
  · subst h0
    simp [Ne.symm hb]
  · by_cases he : b' = b
    · subst he
      simp [h0, hlen]
    · have hne : b - 1 ≠ b' - 1 := by omega
      simp [h0, he, List.getElem?_set, hne]

theorem Heap.block_append (h : Heap) (v : Option (List Byte)) (b : Nat) (f : List Bool) :
    ({ h with blocks := h.blocks ++ [v], fails := f } : Heap).block b =
      if b = h.blocks.length + 1 then v else h.block b := by
  unfold Heap.block
  by_cases h0 : b = 0
  · subst h0; simp
  · by_cases he : b = h.blocks.length + 1
    · subst he; simp
    · simp only [h0, he, if_false]
      by_cases hlt : b - 1 < h.blocks.length
      · rw [List.getElem?_append_left hlt]
      · rw [List.getElem?_eq_none (by simp; omega), List.getElem?_eq_none (by omega)]

theorem Heap.block_fresh (h : Heap) : h.block (h.blocks.length + 1) = none := by
  unfold Heap.block
  simp

/-! ## Facts about stores and the allocator -/

theorem mem_write_fails (h : Heap) (p : Ptr) (bs : List Byte) :
    (mem_write h p bs).fails = h.fails := by
  unfold mem_write
  split_ifs
  · rfl
  · cases h.block p.blk <;> rfl

theorem mem_write_junk (h : Heap) (p : Ptr) (bs : List Byte) :
    (mem_write h p bs).junk = h.junk := by
  unfold mem_write
  split_ifs
  · rfl
  · cases h.block p.blk <;> rfl

theorem Heap.block_congr {h h' : Heap} (hb : h'.blocks = h.blocks) (b : Nat) :
    h'.block b = h.block b := by
  unfold Heap.block
  rw [hb]

theorem Heap.block_setBlock_fails (h : Heap) (b : Nat) (v : Option (List Byte))
    (f : List Bool) (hb : b ≠ 0) (hlen : b - 1 < h.blocks.length) :
    ({ h.setBlock b v with fails := f } : Heap).block b = v :=
  (Heap.block_congr (h := h.setBlock b v) rfl b).trans
    (by rw [Heap.block_setBlock h _ _ _ hb hlen, if_pos rfl])

theorem mem_write_block (h : Heap) (p : Ptr) (bs : List Byte) (cs : List Byte)
    (hb : h.block p.blk = some cs) (b : Nat) :
    (mem_write h p bs).block b =
      if b = p.blk then some (splice cs p.off bs) else h.block b := by
  obtain ⟨h0, hlen⟩ := Heap.block_some hb
  unfold mem_write
  by_cases hbs : bs = []
  · subst hbs
    rw [if_pos rfl]
    by_cases he : b = p.blk
    · subst he
      rw [if_pos rfl, hb]
      congr 1
      apply List.ext_getElem?
      intro j
      rw [splice_getElem?]
      by_cases hj : j < cs.length
      · simp only [hj, if_true, List.length_nil, Nat.add_zero]
        split_ifs <;> rfl
      · simp [hj, List.getElem?_eq_none (Nat.le_of_not_lt hj)]
    · rw [if_neg he]
  · rw [if_neg hbs, hb]
    simp only
    rw [← Heap.block_setBlock h p.blk b _ h0 hlen]
    exact Heap.block_congr rfl b

theorem mem_write_block_none (h : Heap) (p : Ptr) (bs : List Byte)
    (hb : h.block p.blk = none) (b : Nat) :
    (mem_write h p bs).block b = h.block b := by
  unfold mem_write
  split_ifs
  · rfl
  · rw [hb]
    exact Heap.block_congr rfl b

theorem mem_write_block_isSome (h : Heap) (p : Ptr) (bs : List Byte) (b : Nat) :
    ((mem_write h p bs).block b).isSome = (h.block b).isSome := by
  cases hb : h.block p.blk with
  | none => rw [mem_write_block_none h p bs hb]
  | some cs =>
    rw [mem_write_block h p bs cs hb]
    by_cases he : b = p.blk
    · subst he
      simp [hb]
    · simp [he]

theorem memcpy_item_fails (h : Heap) (p : Ptr) (item : List Byte) (n : Nat) :
    (memcpy_item h p item n).fails = h.fails := by
  unfold memcpy_item
  split_ifs
  · exact mem_write_fails _ _ _
  · exact mem_write_fails _ _ _

theorem memcpy_item_block_isSome (h : Heap) (p : Ptr) (item : List Byte) (n b : Nat) :
    ((memcpy_item h p item n).block b).isSome = (h.block b).isSome := by
  unfold memcpy_item
  split_ifs
  · exact mem_write_block_isSome _ _ _ _
  · exact mem_write_block_isSome _ _ _ _

theorem noFail_tail {h : Heap} (hok : h.noFail) : ∀ b ∈ h.fails.tail, b = false :=
  fun b hb => hok b (List.mem_of_mem_tail hb)

theorem fl_malloc_ok (h : Heap) (n : Nat) (hok : h.noFail) :
    fl_malloc h n =
      ({ h with blocks := h.blocks ++ [some (List.replicate n 0)], fails := h.fails.tail },
        ⟨h.blocks.length + 1, 0⟩) := by
  unfold fl_malloc
  cases hf : h.fails with
  | nil => rfl
  | cons b rest =>
    have : b = false := hok b (by rw [hf]; exact List.mem_cons_self _ _)
    subst this
    rfl

theorem fl_realloc_ok (h : Heap) (p : Ptr) (n : Nat) (cs : List Byte) (hok : h.noFail)
    (hb : h.block p.blk = some cs) (hoff : p.off = 0) :
    fl_realloc h p n =
      ({ h.setBlock p.blk (some (cs.take n ++ List.replicate (n - cs.length) h.junk)) with
          fails := h.fails.tail }, p) := by
  have hp : p ≠ NULL := by
    intro hp
    rw [hp] at hb
    simp [NULL, Heap.block] at hb
  unfold fl_realloc
  rw [if_neg hp, hb]
  simp only [hoff, if_true]
  cases hf : h.fails with
  | nil => rfl
  | cons b rest =>
    have : b = false := hok b (by rw [hf]; exact List.mem_cons_self _ _)
    subst this
    rfl

theorem fl_realloc_null_ok (h : Heap) (n : Nat) (hok : h.noFail) :
    fl_realloc h NULL n =
      ({ h with blocks := h.blocks ++ [some (List.replicate n h.junk)],
                fails := h.fails.tail },
        ⟨h.blocks.length + 1, 0⟩) := by
  unfold fl_realloc
  rw [if_pos rfl]
  cases hf : h.fails with
  | nil => rfl
  | cons b rest =>
    have : b = false := hok b (by rw [hf]; exact List.mem_cons_self _ _)
    subst this
    rfl

/-! ## Facts about the descriptor fields after each operation -/

theorem fl_get_local_set_zero (fl : fl_s) : fl_get_local (fl_set_local fl 0) = 0 := by
  unfold fl_get_local
  rw [fl_local_eq, fl_set_local_zero_size]
  omega

theorem fl_resize_to_used (h : Heap) (fl : fl_s) (n : Nat) :
    (fl_resize_to h fl n).2.used = fl.used := by
  unfold fl_resize_to fl_set_local
  simp only
  split_ifs <;> rfl

theorem fl_resize_to_size (h : Heap) (fl : fl_s) (n : Nat) :
    (fl_resize_to h fl n).2.size = 2 * ((n / 2) % 9223372036854775808) := by
  have key : (fl_resize_to h fl n).2.size = (fl_set_local ⟨n, 0, NULL⟩ 0).size := by
    unfold fl_resize_to fl_set_local
    simp only
    split_ifs <;> rfl
  rw [key, fl_set_local_zero_size]

theorem fl_resize_to_local (h : Heap) (fl : fl_s) (n : Nat) :
    fl_get_local (fl_resize_to h fl n).2 = 0 := by
  unfold fl_get_local
  rw [fl_local_eq, fl_resize_to_size]
  omega

theorem fl_resize_used (h : Heap) (fl : fl_s) (n : Nat) :
    (fl_resize h fl n).2.used = fl.used := by
  unfold fl_resize
  simp only
  split_ifs
  · exact fl_resize_to_used _ _ _
  · rfl

/-! ## The three ways `fl_resize_to` runs when the allocator succeeds -/

theorem fl_resize_to_owned_eq (h : Heap) (fl : fl_s) (n : Nat) (cs : List Byte)
    (hok : h.noFail) (hl : fl_get_local fl = 0) (hb : h.block fl.data.blk = some cs)
    (hoff : fl.data.off = 0) :
    fl_resize_to h fl n =
      (if n > fm_size fl then
          memset ({ h.setBlock fl.data.blk
                      (some (cs.take n ++ List.replicate (n - cs.length) h.junk)) with
                    fails := h.fails.tail })
            (fl.data.add (fm_size fl)) 0 (sub64 n (fm_size fl))
        else
          { h.setBlock fl.data.blk
              (some (cs.take n ++ List.replicate (n - cs.length) h.junk)) with
            fails := h.fails.tail },
        fl_set_local { fl with size := n } 0) := by
  unfold fl_resize_to
  rw [if_neg (by simp [hl]), fl_realloc_ok h fl.data n cs hok hb hoff]
  simp only
  split_ifs <;> rfl

theorem fl_resize_to_null_eq (h : Heap) (fl : fl_s) (n : Nat)
    (hok : h.noFail) (hl : fl_get_local fl = 0) (hd : fl.data = NULL) :
    fl_resize_to h fl n =
      (if n > fm_size fl then
          memset ({ h with blocks := h.blocks ++ [some (List.replicate n h.junk)],
                           fails := h.fails.tail })
            ((⟨h.blocks.length + 1, 0⟩ : Ptr).add (fm_size fl)) 0 (sub64 n (fm_size fl))
        else
          { h with blocks := h.blocks ++ [some (List.replicate n h.junk)],
                   fails := h.fails.tail },
        fl_set_local { fl with size := n, data := ⟨h.blocks.length + 1, 0⟩ } 0) := by
  unfold fl_resize_to
  rw [if_neg (by simp [hl]), hd, fl_realloc_null_ok h n hok]
  simp only
  split_ifs <;> rfl

theorem fl_resize_to_local_eq (h : Heap) (fl : fl_s) (n : Nat)
    (hok : h.noFail) (hl : fl_get_local fl ≠ 0) :
    fl_resize_to h fl n =
      ({ h with blocks := h.blocks ++ [some (List.replicate n 0)], fails := h.fails.tail },
        fl_set_local { fl with size := n, data := ⟨h.blocks.length + 1, 0⟩ } 0) := by
  unfold fl_resize_to
  rw [if_pos hl, fl_malloc_ok h n hok]

theorem fl_set_local_data (fl : fl_s) (v : Nat) : (fl_set_local fl v).data = fl.data := by
  unfold fl_set_local
  split_ifs <;> rfl

theorem fl_set_local_used (fl : fl_s) (v : Nat) : (fl_set_local fl v).used = fl.used := by
  unfold fl_set_local
  split_ifs <;> rfl

theorem memset_fails (h : Heap) (p : Ptr) (v : Byte) (n : Nat) :
    (memset h p v n).fails = h.fails := mem_write_fails _ _ _

theorem memset_block_isSome (h : Heap) (p : Ptr) (v : Byte) (n b : Nat) :
    ((memset h p v n).block b).isSome = (h.block b).isSome :=
  mem_write_block_isSome _ _ _ _

/-- An owned descriptor stays owned across `fl_resize_to` when the allocator succeeds. -/
theorem fl_resize_to_owned (h : Heap) (fl : fl_s) (n : Nat)
    (hok : h.noFail) (ho : fl_owned h fl) :
    (fl_resize_to h fl n).1.noFail ∧ fl_owned (fl_resize_to h fl n).1 (fl_resize_to h fl n).2 := by
  obtain ⟨hl, hd, hoff, hsome⟩ := ho
  obtain ⟨cs, hb⟩ := Option.isSome_iff_exists.mp hsome
  obtain ⟨h0, hlen⟩ := Heap.block_some hb
  rw [fl_resize_to_owned_eq h fl n cs hok hl hb hoff]
  have hblk : ∀ v : Option (List Byte), ∀ f : List Bool,
      (({ h.setBlock fl.data.blk v with fails := f } : Heap).block fl.data.blk) = v := by
    intro v f
    exact (Heap.block_congr (h := h.setBlock fl.data.blk v) rfl fl.data.blk).trans
      (by rw [Heap.block_setBlock h _ _ _ h0 hlen, if_pos rfl])
  refine ⟨?_, fl_get_local_set_zero _, ?_, ?_, ?_⟩
  · unfold Heap.noFail
    split_ifs
    · rw [memset_fails]; exact noFail_tail hok
    · exact noFail_tail hok
  · rw [fl_set_local_data]; exact hd
  · rw [fl_set_local_data]; exact hoff
  · rw [fl_set_local_data]
    simp only
    split_ifs
    · rw [memset_block_isSome, hblk]; rfl
    · rw [hblk]; rfl

theorem fl_resize_owned (h : Heap) (fl : fl_s) (n : Nat)
    (hok : h.noFail) (ho : fl_owned h fl) :
    (fl_resize h fl n).1.noFail ∧ fl_owned (fl_resize h fl n).1 (fl_resize h fl n).2 := by
  unfold fl_resize
  simp only
  split_ifs
  · exact fl_resize_to_owned h fl _ hok ho
  · exact ⟨hok, ho⟩

/-! ## The append operations as growth step followed by the copy -/

theorem fl_add_eq (h : Heap) (fl : fl_s) (item : List Byte) (size : Nat) :
    fl_add h fl item size =
      (memcpy_item (fl_grow h fl size).1
          ((fl_grow h fl size).2.data.add (fl_grow h fl size).2.used) item size,
        { (fl_grow h fl size).2 with used := add64 (fl_grow h fl size).2.used size }) := rfl

theorem fl_push_eq (h : Heap) (fl : fl_s) (item : List Byte) (size : Nat) :
    fl_push h fl item size =
      fl_add (fl_push_new h fl).1 (fl_push_new h fl).2 item size := rfl

theorem fl_alloc_eq (h : Heap) (fl : fl_s) (size : Nat) :
    fl_alloc h fl size =
      ((fl_grow h fl size).1,
        { (fl_grow h fl size).2 with used := add64 (fl_grow h fl size).2.used size },
        (fl_grow h fl size).2.data.add (fl_grow h fl size).2.used) := rfl

theorem fl_grow_used (h : Heap) (fl : fl_s) (size : Nat) :
    (fl_grow h fl size).2.used = fl.used := by
  unfold fl_grow
  split_ifs
  · exact fl_resize_used _ _ _
  · rfl

theorem fl_grow_owned (h : Heap) (fl : fl_s) (size : Nat)
    (hok : h.noFail) (ho : fl_owned h fl) :
    (fl_grow h fl size).1.noFail ∧ fl_owned (fl_grow h fl size).1 (fl_grow h fl size).2 := by
  unfold fl_grow
  split_ifs
  · exact fl_resize_owned h fl _ hok ho
  · exact ⟨hok, ho⟩

theorem fl_add_owned (h : Heap) (fl : fl_s) (item : List Byte) (size : Nat)
    (hok : h.noFail) (ho : fl_owned h fl) :
    (fl_add h fl item size).1.noFail ∧
      fl_owned (fl_add h fl item size).1 (fl_add h fl item size).2 ∧
      (fl_add h fl item size).2.used = add64 fl.used size := by
  obtain ⟨hok1, hl, hd, hoff, hsome⟩ := fl_grow_owned h fl size hok ho
  rw [fl_add_eq]
  refine ⟨?_, ⟨hl, hd, hoff, ?_⟩, ?_⟩
  · unfold Heap.noFail
    rw [memcpy_item_fails]
    exact hok1
  · simp only
    rw [memcpy_item_block_isSome]
    exact hsome
  · simp only
    rw [fl_grow_used]

theorem fl_init_fields (fl : fl_s) (size : Nat) (data : Ptr) (lcl : Nat) :
    (fl_init fl size data lcl).used = 0 ∧ (fl_init fl size data lcl).data = data ∧
      (fl_init fl size data lcl).size = (fl_set_local ⟨size, 0, NULL⟩ lcl).size := by
  unfold fl_init fl_set_size_and_local fl_set_local
  split_ifs <;> exact ⟨rfl, rfl, rfl⟩

/-- A successful `fl_new_sized` body leaves an owned, empty descriptor. -/
theorem fl_new_sized_init_owned (h : Heap) (rec : fl_s) (size : Nat) (hok : h.noFail) :
    (fl_new_sized_init h rec size).1.noFail ∧
      fl_owned (fl_new_sized_init h rec size).1 (fl_new_sized_init h rec size).2 ∧
      (fl_new_sized_init h rec size).2.used = 0 := by
  unfold fl_new_sized_init
  simp only
  rw [fl_malloc_ok h _ hok]
  simp only
  obtain ⟨hu, hd, hs⟩ := fl_init_fields rec (fl_legal_size size) ⟨h.blocks.length + 1, 0⟩ 0
  refine ⟨noFail_tail hok, ⟨?_, ?_, ?_, ?_⟩, hu⟩
  · unfold fl_get_local
    rw [fl_local_eq, hs, fl_set_local_zero_size]
    omega
  · rw [hd]; simp [NULL]
  · rw [hd]
  · rw [hd, Heap.block_append]
    simp

theorem fl_push_new_owned (h : Heap) (fl : fl_s) (hok : h.noFail) (hp : fl_pushable h fl) :
    (fl_push_new h fl).1.noFail ∧ fl_owned (fl_push_new h fl).1 (fl_push_new h fl).2 ∧
      (fl_push_new h fl).2.used = fl.used := by
  unfold fl_push_new
  rcases hp with ⟨_, hd, hu⟩ | ho
  · rw [if_pos hd, hu]
    exact fl_new_sized_init_owned h fl _ hok
  · rw [if_neg ho.2.1]
    exact ⟨hok, ho, rfl⟩

theorem fl_push_owned (h : Heap) (fl : fl_s) (item : List Byte) (size : Nat)
    (hok : h.noFail) (hp : fl_pushable h fl) :
    (fl_push h fl item size).1.noFail ∧
      fl_owned (fl_push h fl item size).1 (fl_push h fl item size).2 ∧
      (fl_push h fl item size).2.used = add64 fl.used size := by
  obtain ⟨hok1, ho1, hu1⟩ := fl_push_new_owned h fl hok hp
  rw [fl_push_eq, ← hu1]
  exact fl_add_owned _ _ item size hok1 ho1

theorem fl_push_all_used (items : List (List Byte × Nat)) :
    ∀ (h : Heap) (fl : fl_s), h.noFail → fl_pushable h fl →
      fl.used + (items.map Prod.snd).sum < 2 ^ 64 →
      (fl_push_all h fl items).2.used = fl.used + (items.map Prod.snd).sum := by
  induction items with
  | nil => intro h fl _ _ _; simp [fl_push_all]
  | cons it rest ih =>
    intro h fl hok hp hsum
    obtain ⟨hok1, ho1, hu1⟩ := fl_push_owned h fl it.1 it.2 hok hp
    simp only [List.map_cons, List.sum_cons] at hsum ⊢
    have hadd : add64 fl.used it.2 = fl.used + it.2 := by
      unfold add64; omega
    have := ih (fl_push h fl it.1 it.2).1 (fl_push h fl it.1 it.2).2 hok1 (Or.inr ho1)
      (by rw [hu1, hadd]; omega)
    unfold fl_push_all at this ⊢
    rw [List.foldl_cons, this, hu1, hadd]
    omega

theorem fl_add_all_used (items : List (List Byte × Nat)) :
    ∀ (h : Heap) (fl : fl_s), h.noFail → fl_owned h fl →
      fl.used + (items.map Prod.snd).sum < 2 ^ 64 →
      (fl_add_all h fl items).2.used = fl.used + (items.map Prod.snd).sum := by
  induction items with
  | nil => intro h fl _ _ _; simp [fl_add_all]
  | cons it rest ih =>
    intro h fl hok ho hsum
    obtain ⟨hok1, ho1, hu1⟩ := fl_add_owned h fl it.1 it.2 hok ho
    simp only [List.map_cons, List.sum_cons] at hsum ⊢
    have hadd : add64 fl.used it.2 = fl.used + it.2 := by
      unfold add64; omega
    have := ih (fl_add h fl it.1 it.2).1 (fl_add h fl it.1 it.2).2 hok1 ho1
      (by rw [hu1, hadd]; omega)
    unfold fl_add_all at this ⊢
    rw [List.foldl_cons, this, hu1, hadd]
    omega

/-! ## Creation when the allocator succeeds -/

theorem fl_allocate_descriptor_if_ok (h : Heap) (fl : fl_t) (hok : h.noFail) :
    (fl_allocate_descriptor_if h fl).1.noFail ∧ (fl_allocate_descriptor_if h fl).2 ≠ NULL := by
  unfold fl_allocate_descriptor_if
  split_ifs with hn
  · rw [fl_malloc_ok h _ hok]
    exact ⟨noFail_tail hok, by simp [NULL]⟩
  · exact ⟨hok, hn⟩

theorem fl_new_sized_ok (h : Heap) (fl : fl_t) (rec : fl_s) (size : Nat) (hok : h.noFail) :
    (fl_new_sized h fl rec size).2.1 ≠ NULL ∧ (fl_new_sized h fl rec size).1.noFail ∧
      fl_owned (fl_new_sized h fl rec size).1 (fl_new_sized h fl rec size).2.2 ∧
      (fl_new_sized h fl rec size).2.2.used = 0 := by
  obtain ⟨hok1, hne⟩ := fl_allocate_descriptor_if_ok h fl hok
  have heq : fl_new_sized h fl rec size =
      ((fl_new_sized_init (fl_allocate_descriptor_if h fl).1
          (if fl = NULL then (⟨0, 0, NULL⟩ : fl_s) else rec) size).1,
        (fl_allocate_descriptor_if h fl).2,
        (fl_new_sized_init (fl_allocate_descriptor_if h fl).1
          (if fl = NULL then (⟨0, 0, NULL⟩ : fl_s) else rec) size).2) := by
    unfold fl_new_sized
    simp only
    rw [if_neg hne]
  rw [heq]
  exact ⟨hne, fl_new_sized_init_owned _ _ _ hok1⟩

theorem fl_new_descriptor_ok (h : Heap) (fl : fl_t) (rec : fl_s) (hok : h.noFail) :
    (fl_new_descriptor h fl rec).2.1 ≠ NULL ∧ (fl_new_descriptor h fl rec).1.noFail ∧
      fl_pushable (fl_new_descriptor h fl rec).1 (fl_new_descriptor h fl rec).2.2 ∧
      (fl_new_descriptor h fl rec).2.2.used = 0 := by
  obtain ⟨hok1, hne⟩ := fl_allocate_descriptor_if_ok h fl hok
  unfold fl_new_descriptor
  simp only
  rw [if_neg hne]
  refine ⟨hne, hok1, Or.inl ⟨?_, rfl, rfl⟩, rfl⟩
  simp [fl_get_local, fl_local]

/-! ## C1: `used` is the running sum of the pushed sizes -/

/-- C1. When every allocation succeeds, a descriptor fresh from `fl_new`,
`fl_new_sized` or `fl_new_descriptor` exists (the returned pointer is not `NULL`)
and after any sequence of `fl_push` calls whose sizes sum to less than `2 ^ 64`
`fl_used` is that sum; the same holds for a sequence of `fl_add` calls on the
descriptors that have a buffer (`fl_new`, `fl_new_sized`). -/
theorem fl_used_eq_sum_of_sizes (h : Heap) (fl : fl_t) (rec : fl_s) (size : Nat)
    (items : List (List Byte × Nat)) (hok : h.noFail)
    (hsum : (items.map Prod.snd).sum < 2 ^ 64) :
    ((fl_new h fl rec).2.1 ≠ NULL ∧
      fl_used (fl_push_all (fl_new h fl rec).1 (fl_new h fl rec).2.2 items).2
        = (items.map Prod.snd).sum) ∧
    ((fl_new_sized h fl rec size).2.1 ≠ NULL ∧
      fl_used (fl_push_all (fl_new_sized h fl rec size).1 (fl_new_sized h fl rec size).2.2
        items).2 = (items.map Prod.snd).sum) ∧
    ((fl_new_descriptor h fl rec).2.1 ≠ NULL ∧
      fl_used (fl_push_all (fl_new_descriptor h fl rec).1 (fl_new_descriptor h fl rec).2.2
        items).2 = (items.map Prod.snd).sum) ∧
    fl_used (fl_add_all (fl_new h fl rec).1 (fl_new h fl rec).2.2 items).2
      = (items.map Prod.snd).sum ∧
    fl_used (fl_add_all (fl_new_sized h fl rec size).1 (fl_new_sized h fl rec size).2.2
      items).2 = (items.map Prod.snd).sum := by
  have hs : ∀ sz, (fl_new_sized h fl rec sz).2.1 ≠ NULL ∧
      fl_used (fl_push_all (fl_new_sized h fl rec sz).1 (fl_new_sized h fl rec sz).2.2
        items).2 = (items.map Prod.snd).sum ∧
      fl_used (fl_add_all (fl_new_sized h fl rec sz).1 (fl_new_sized h fl rec sz).2.2
        items).2 = (items.map Prod.snd).sum := by
    intro sz
    obtain ⟨hne, hok1, ho, hu⟩ := fl_new_sized_ok h fl rec sz hok
    refine ⟨hne, ?_, ?_⟩
    · unfold fl_used
      rw [fl_push_all_used items _ _ hok1 (Or.inr ho) (by rw [hu]; omega), hu]
      omega
    · unfold fl_used
      rw [fl_add_all_used items _ _ hok1 ho (by rw [hu]; omega), hu]
      omega
  obtain ⟨hne, hok1, hp, hu⟩ := fl_new_descriptor_ok h fl rec hok
  refine ⟨⟨(hs _).1, (hs _).2.1⟩, ⟨(hs size).1, (hs size).2.1⟩, ⟨hne, ?_⟩,
    (hs _).2.2, (hs size).2.2⟩
  unfold fl_used
  rw [fl_push_all_used items _ _ hok1 hp (by rw [hu]; omega), hu]
  omega

/-- Witness for C1: three pushes of 5, 20 and 7 bytes (the second one grows the
buffer) on descriptors created in the empty memory. -/
theorem fl_used_eq_sum_of_sizes_witness :
    Heap.empty.noFail ∧
    fl_used (fl_push_all (fl_new Heap.empty NULL ⟨0, 0, NULL⟩).1
      (fl_new Heap.empty NULL ⟨0, 0, NULL⟩).2.2
      [(List.replicate 5 1, 5), (List.replicate 20 2, 20), (List.replicate 7 3, 7)]).2
      = 32 :=
  ⟨by decide,
   (fl_used_eq_sum_of_sizes Heap.empty NULL ⟨0, 0, NULL⟩ 12
      [(List.replicate 5 1, 5), (List.replicate 20 2, 20), (List.replicate 7 3, 7)]
      (by decide) (by norm_num)).1.2⟩

/-! ## Reading single bytes -/

theorem mem_read_byte (h : Heap) (p : Ptr) (cs : List Byte) (v : Byte)
    (hb : h.block p.blk = some cs) (hv : cs[p.off]? = some v) :
    mem_read h p 1 = some [v] := by
  obtain ⟨hlt, hget⟩ := List.getElem?_eq_some.mp hv
  unfold mem_read
  rw [if_neg (by norm_num), hb]
  simp only
  rw [if_pos (by omega)]
  congr 1
  apply List.ext_getElem?
  intro j
  rw [List.getElem?_take, List.getElem?_drop]
  by_cases hj : j < 1
  · have : j = 0 := by omega
    subst this
    simp [hv]
  · simp only [hj, if_false]
    rw [List.getElem?_eq_none (by simp; omega)]

theorem memset_zero_byte (h : Heap) (p : Ptr) (n : Nat) (cs : List Byte) (i : Nat)
    (hb : h.block p.blk = some cs) (hin : p.off + n ≤ cs.length)
    (hlo : p.off ≤ i) (hhi : i < p.off + n) :
    mem_read (memset h p 0 n) ⟨p.blk, i⟩ 1 = some [0] := by
  apply mem_read_byte _ _ (splice cs p.off (List.replicate n 0)) 0
  · unfold memset
    rw [mem_write_block h p _ cs hb]
    simp
  · simp only
    rw [splice_getElem?]
    have h1 : i < cs.length := by omega
    have h2 : ¬ i < p.off := by omega
    simp only [h1, h2, hhi, if_true, if_false, List.length_replicate]
    rw [List.getElem?_replicate, if_pos (by omega)]

theorem sub64_of_le (a b : Nat) (hle : b ≤ a) (ha : a < 2 ^ 64) : sub64 a b = a - b := by
  unfold sub64; omega

theorem fl_legal_size_lt (size : Nat) (hsize : size < 2 ^ 64) :
    fl_legal_size size < 2 ^ 64 := by
  have hsize2 : size < 18446744073709551616 := by norm_num at hsize; exact hsize
  obtain ⟨he, h2, hlt⟩ := fl_norm_size_spec size hsize2
  obtain ⟨_, _, hl⟩ := fl_align_size_spec _ he h2 hlt
  rw [fl_legal_size_norm]
  norm_num
  exact hl

theorem fl_legal_size_even (size : Nat) (hsize : size < 2 ^ 64) :
    fl_legal_size size % 2 = 0 := by
  have hsize2 : size < 18446744073709551616 := by norm_num at hsize; exact hsize
  obtain ⟨he, h2, hlt⟩ := fl_norm_size_spec size hsize2
  obtain ⟨ae, _, _⟩ := fl_align_size_spec _ he h2 hlt
  rw [fl_legal_size_norm]
  exact ae

theorem fl_legal_size_ge_two (size : Nat) (hsize : size < 2 ^ 64) :
    2 ≤ fl_legal_size size := by
  have hsize2 : size < 18446744073709551616 := by norm_num at hsize; exact hsize
  obtain ⟨he, h2, hlt⟩ := fl_norm_size_spec size hsize2
  obtain ⟨_, a2, _⟩ := fl_align_size_spec _ he h2 hlt
  rw [fl_legal_size_norm]
  exact a2

/-- The bytes from the old capacity on are zero after a successful `fl_resize_to`. -/
theorem fl_resize_to_zero_fill (h : Heap) (fl : fl_s) (n : Nat) (hn : n < 2 ^ 64)
    (hok : h.noFail) (hv : fl_data_valid h fl) (i : Nat) (hlo : fm_size fl ≤ i) (hhi : i < n) :
    mem_read (fl_resize_to h fl n).1 ((fl_resize_to h fl n).2.data.add i) 1 = some [0] := by
  have hgt : n > fm_size fl := by omega
  have hsub : sub64 n (fm_size fl) = n - fm_size fl := sub64_of_le _ _ (by omega) hn
  by_cases hl : fl_get_local fl = 0
  · rcases hv hl with hd | ⟨hoff, hsome⟩
    · rw [fl_resize_to_null_eq h fl n hok hl hd, if_pos hgt, fl_set_local_data, hsub]
      have := memset_zero_byte
        ({ h with blocks := h.blocks ++ [some (List.replicate n h.junk)],
                  fails := h.fails.tail })
        ((⟨h.blocks.length + 1, 0⟩ : Ptr).add (fm_size fl)) (n - fm_size fl)
        (List.replicate n h.junk) (0 + i)
        (by rw [Ptr.add, Heap.block_append]; simp)
        (by simp [Ptr.add]; omega) (by simp [Ptr.add]; omega) (by simp [Ptr.add]; omega)
      exact this
    · obtain ⟨cs, hb⟩ := Option.isSome_iff_exists.mp hsome
      obtain ⟨h0, hlen⟩ := Heap.block_some hb
      rw [fl_resize_to_owned_eq h fl n cs hok hl hb hoff, if_pos hgt, fl_set_local_data, hsub]
      have := memset_zero_byte
        ({ h.setBlock fl.data.blk
              (some (cs.take n ++ List.replicate (n - cs.length) h.junk)) with
            fails := h.fails.tail })
        (fl.data.add (fm_size fl)) (n - fm_size fl)
        (cs.take n ++ List.replicate (n - cs.length) h.junk) (fl.data.off + i)
        ((Heap.block_congr (h := h.setBlock fl.data.blk
              (some (cs.take n ++ List.replicate (n - cs.length) h.junk))) rfl _).trans
          (by rw [Ptr.add, Heap.block_setBlock h _ _ _ h0 hlen, if_pos rfl]))
        (by simp [Ptr.add, hoff]; omega) (by simp [Ptr.add]; omega)
        (by simp [Ptr.add]; omega)
      exact this
  · rw [fl_resize_to_local_eq h fl n hok hl, fl_set_local_data]
    apply mem_read_byte _ _ (List.replicate n 0) 0
    · rw [Ptr.add, Heap.block_append]; simp
    · simp [Ptr.add, List.getElem?_replicate, hhi]

/-! ## C5: `fl_resize` -/

/-- C5. With `n = fl_legal_size new_size` for a 64-bit `new_size`: if `n < used`,
`fl_resize` leaves the memory and the descriptor unchanged; otherwise afterwards
`fl_size` is `n`, `used` is unchanged and the descriptor is not local, and, the
allocation succeeding on a descriptor whose `data` the allocator accepts, every
byte of the region from the old capacity up to `n` reads zero. -/
theorem fl_resize_spec (h : Heap) (fl : fl_s) (new_size : Nat) (hn : new_size < 2 ^ 64) :
    (fl_legal_size new_size < fl.used → fl_resize h fl new_size = (h, fl)) ∧
    (fl.used ≤ fl_legal_size new_size →
      fl_size (fl_resize h fl new_size).2 = fl_legal_size new_size ∧
      fl_used (fl_resize h fl new_size).2 = fl_used fl ∧
      fl_get_local (fl_resize h fl new_size).2 = 0 ∧
      (h.noFail → fl_data_valid h fl →
        ∀ i : Nat, fl_size fl ≤ i → i < fl_legal_size new_size →
          mem_read (fl_resize h fl new_size).1
            ((fl_data (fl_resize h fl new_size).2).add i) 1 = some [0])) := by
  have hlt := fl_legal_size_lt new_size hn
  have hev := fl_legal_size_even new_size hn
  constructor
  · intro hlt2
    unfold fl_resize
    simp only
    rw [if_neg (by omega)]
  · intro hle
    have heq : fl_resize h fl new_size = fl_resize_to h fl (fl_legal_size new_size) := by
      unfold fl_resize
      simp only
      rw [if_pos hle]
    rw [heq]
    refine ⟨?_, fl_resize_to_used _ _ _, fl_resize_to_local _ _ _, ?_⟩
    · unfold fl_size
      rw [fm_size_eq, fl_resize_to_size]
      omega
    · intro hok hv i hlo hhi
      exact fl_resize_to_zero_fill h fl _ hlt hok hv i hlo hhi

/-- Witness for C5 on a 16-byte buffer with 5 bytes used: a request of 3 is
ignored, a request of 40 gives capacity 40 with byte 20 zero. -/
theorem fl_resize_spec_witness :
    (40 : Nat) < 2 ^ 64 ∧ small_mem.noFail ∧
    fl_resize small_mem ⟨16, 5, ⟨1, 0⟩⟩ 3 = (small_mem, ⟨16, 5, ⟨1, 0⟩⟩) ∧
    fl_size (fl_resize small_mem ⟨16, 5, ⟨1, 0⟩⟩ 40).2 = 40 ∧
    mem_read (fl_resize small_mem ⟨16, 5, ⟨1, 0⟩⟩ 40).1
      ((fl_data (fl_resize small_mem ⟨16, 5, ⟨1, 0⟩⟩ 40).2).add 20) 1 = some [0] :=
  ⟨by norm_num, by decide,
   (fl_resize_spec small_mem ⟨16, 5, ⟨1, 0⟩⟩ 3 (by norm_num)).1 (by decide),
   ((fl_resize_spec small_mem ⟨16, 5, ⟨1, 0⟩⟩ 40 (by norm_num)).2 (by decide)).1,
   ((fl_resize_spec small_mem ⟨16, 5, ⟨1, 0⟩⟩ 40 (by norm_num)).2 (by decide)).2.2.2
     (by decide) (fun _ => Or.inr ⟨rfl, rfl⟩) 20 (by decide) (by decide)⟩

/-! ## The local flag across the operations -/

theorem Heap.sizes_ok_block {h : Heap} (hs : h.sizes_ok) {b : Nat} {cs : List Byte}
    (hb : h.block b = some cs) : cs.length < 2 ^ 63 := by
  unfold Heap.block at hb
  by_cases h0 : b = 0
  · simp [h0] at hb
  · rw [if_neg h0, Option.join_eq_some] at hb
    exact hs (some cs) (List.getElem?_mem hb) cs rfl

theorem fl_region_bounds {h : Heap} {fl : fl_s} (hs : h.sizes_ok) (hr : fl_region h fl) :
    fm_size fl < 2 ^ 63 := by
  obtain ⟨cs, hb, hle⟩ := hr
  have := Heap.sizes_ok_block hs hb
  omega

theorem fl_region_data_ne {h : Heap} {fl : fl_s} (hr : fl_region h fl) : fl.data ≠ NULL := by
  obtain ⟨cs, hb, _⟩ := hr
  intro hd
  rw [hd] at hb
  simp [NULL, Heap.block] at hb

/-- Doubling a capacity below `2 ^ 63` and legalising it never gives less than the
capacity itself. -/
theorem fl_legal_size_double_ge (cap : Nat) (he : cap % 2 = 0) (hc : cap < 2 ^ 63) :
    cap ≤ fl_legal_size (mul64 cap 2) := by
  have hc2 : cap < 9223372036854775808 := by norm_num at hc; exact hc
  have hm : mul64 cap 2 = 2 * cap := by unfold mul64; omega
  rw [hm, fl_legal_size_norm]
  have hnorm : fl_norm_size (2 * cap) = if cap = 0 then 2 else 2 * cap := by
    simp only [fl_norm_size, fl_snor_eq]
    split_ifs <;> omega
  rw [hnorm, fl_align_size_eq]
  split_ifs <;> omega

theorem fl_get_local_with_used (fl : fl_s) (u : Nat) :
    fl_get_local { fl with used := u } = fl_get_local fl := rfl

theorem fl_size_with_used (fl : fl_s) (u : Nat) :
    fl_size { fl with used := u } = fl_size fl := rfl

theorem fl_resize_local_zero (h : Heap) (fl : fl_s) (n : Nat) (hl : fl_get_local fl = 0) :
    fl_get_local (fl_resize h fl n).2 = 0 := by
  unfold fl_resize
  simp only
  split_ifs
  · exact fl_resize_to_local _ _ _
  · exact hl

theorem fl_grow_local_zero (h : Heap) (fl : fl_s) (size : Nat) (hl : fl_get_local fl = 0) :
    fl_get_local (fl_grow h fl size).2 = 0 := by
  unfold fl_grow
  split_ifs
  · exact fl_resize_local_zero _ _ _ hl
  · exact hl

theorem fl_push_new_local_zero (h : Heap) (fl : fl_s) (hl : fl_get_local fl = 0) :
    fl_get_local (fl_push_new h fl).2 = 0 := by
  unfold fl_push_new
  split_ifs
  · unfold fl_new_sized_init
    simp only
    unfold fl_get_local
    rw [fl_local_eq, (fl_init_fields _ _ _ _).2.2, fl_set_local_zero_size]
    omega
  · exact hl

/-- The growth step does nothing when the item fits. -/
theorem fl_grow_fits (h : Heap) (fl : fl_s) (size : Nat)
    (hfit : fl.used + size ≤ fl_size fl) : fl_grow h fl size = (h, fl) := by
  unfold fl_grow
  rw [if_neg]
  unfold fl_size at hfit
  unfold add64
  have := Nat.mod_le (fl.used + size) (2 ^ 64)
  omega

/-- The growth step of a descriptor with `used <= capacity < 2 ^ 63`, once
triggered, runs `fl_resize_to`. -/
theorem fl_grow_triggered (h : Heap) (fl : fl_s) (size : Nat)
    (hc : fm_size fl < 2 ^ 63) (hu : fl.used ≤ fl_size fl)
    (htrig : add64 fl.used size > fl_size fl) :
    fl_grow h fl size = fl_resize_to h fl (fl_legal_size (mul64 (fm_size fl) 2)) := by
  unfold fl_size at hu htrig
  have hge := fl_legal_size_double_ge (fm_size fl) (fm_size_even fl) hc
  unfold fl_grow fl_resize
  rw [if_pos htrig]
  simp only
  rw [if_pos (by omega)]

theorem fl_push_new_of_data (h : Heap) (fl : fl_s) (hd : fl.data ≠ NULL) :
    fl_push_new h fl = (h, fl) := by
  unfold fl_push_new
  rw [if_neg hd]

/-! ## C6: the local flag is cleared exactly on growth and never set -/

/-- C6. For a local descriptor holding its memory region with `used <= capacity`:
an `fl_push`, `fl_add` or `fl_alloc` that fits in the free space leaves it local
with the same `data`; one that triggers the growth step leaves it not local, and
so does any `fl_resize` that takes effect. For a descriptor that is not local,
none of `fl_push`, `fl_add`, `fl_alloc`, `fl_pop`, `fl_reset`, `fl_clear`,
`fl_resize` makes it local. -/
theorem fl_local_transition (h : Heap) (fl : fl_s) (item : List Byte) (size new_size : Nat) :
    (fl_get_local fl = 1 → fl_region h fl → fl.used + size ≤ fl_size fl →
      (fl_get_local (fl_push h fl item size).2 = 1 ∧
        fl_data (fl_push h fl item size).2 = fl_data fl) ∧
      (fl_get_local (fl_add h fl item size).2 = 1 ∧
        fl_data (fl_add h fl item size).2 = fl_data fl) ∧
      (fl_get_local (fl_alloc h fl size).2.1 = 1 ∧
        fl_data (fl_alloc h fl size).2.1 = fl_data fl)) ∧
    (fl_get_local fl = 1 → h.sizes_ok → fl_region h fl → fl.used ≤ fl_size fl →
      add64 fl.used size > fl_size fl →
      fl_get_local (fl_push h fl item size).2 = 0 ∧
      fl_get_local (fl_add h fl item size).2 = 0 ∧
      fl_get_local (fl_alloc h fl size).2.1 = 0) ∧
    (fl.used ≤ fl_legal_size new_size → fl_get_local (fl_resize h fl new_size).2 = 0) ∧
    (fl_get_local fl = 0 →
      fl_get_local (fl_push h fl item size).2 = 0 ∧
      fl_get_local (fl_add h fl item size).2 = 0 ∧
      fl_get_local (fl_alloc h fl size).2.1 = 0 ∧
      fl_get_local (fl_pop h fl size).2.1 = 0 ∧
      fl_get_local (fl_reset h fl).2 = 0 ∧
      fl_get_local (fl_clear h fl).2 = 0 ∧
      fl_get_local (fl_resize h fl new_size).2 = 0) := by
  refine ⟨?_, ?_, ?_, ?_⟩
  · intro hl hr hfit
    have hadd : fl_get_local (fl_add h fl item size).2 = 1 ∧
        fl_data (fl_add h fl item size).2 = fl_data fl := by
      rw [fl_add_eq, fl_grow_fits h fl size hfit]
      exact ⟨hl, rfl⟩
    refine ⟨?_, hadd, ?_⟩
    · rw [fl_push_eq, fl_push_new_of_data h fl (fl_region_data_ne hr)]
      exact hadd
    · rw [fl_alloc_eq, fl_grow_fits h fl size hfit]
      exact ⟨hl, rfl⟩
  · intro hl hs hr hu htrig
    have hg := fl_grow_triggered h fl size (fl_region_bounds hs hr) hu htrig
    have hadd : fl_get_local (fl_add h fl item size).2 = 0 := by
      rw [fl_add_eq, hg, fl_get_local_with_used]
      exact fl_resize_to_local _ _ _
    refine ⟨?_, hadd, ?_⟩
    · rw [fl_push_eq, fl_push_new_of_data h fl (fl_region_data_ne hr)]
      exact hadd
    · rw [fl_alloc_eq, hg]
      exact fl_resize_to_local _ _ _
  · intro hle
    unfold fl_resize
    simp only
    rw [if_pos hle]
    exact fl_resize_to_local _ _ _
  · intro hl
    have hadd : ∀ (h1 : Heap) (fl1 : fl_s), fl_get_local fl1 = 0 →
        fl_get_local (fl_add h1 fl1 item size).2 = 0 := by
      intro h1 fl1 hl1
      rw [fl_add_eq, fl_get_local_with_used]
      exact fl_grow_local_zero _ _ _ hl1
    refine ⟨?_, hadd h fl hl, ?_, ?_, hl, hl, fl_resize_local_zero _ _ _ hl⟩
    · rw [fl_push_eq]
      exact hadd _ _ (fl_push_new_local_zero h fl hl)
    · rw [fl_alloc_eq]
      exact fl_grow_local_zero _ _ _ hl
    · unfold fl_pop
      split_ifs
      · exact hl
      · exact hl

/-- Witness for C6 on a local descriptor over a 16-byte array with 10 bytes used:
3 more bytes fit and keep it local, 7 more bytes trigger growth and clear the
flag; a descriptor that is not local stays so across `fl_clear`. -/
theorem fl_local_transition_witness :
    fl_get_local (⟨17, 10, ⟨1, 0⟩⟩ : fl_s) = 1 ∧
    fl_get_local (fl_push small_mem ⟨17, 10, ⟨1, 0⟩⟩ [1, 2, 3] 3).2 = 1 ∧
    fl_data (fl_push small_mem ⟨17, 10, ⟨1, 0⟩⟩ [1, 2, 3] 3).2 = ⟨1, 0⟩ ∧
    fl_get_local (fl_push small_mem ⟨17, 10, ⟨1, 0⟩⟩ (List.replicate 7 1) 7).2 = 0 ∧
    fl_get_local (fl_clear small_mem ⟨16, 10, ⟨1, 0⟩⟩).2 = 0 :=
  ⟨by decide,
   ((fl_local_transition small_mem ⟨17, 10, ⟨1, 0⟩⟩ [1, 2, 3] 3 0).1 (by decide)
      ⟨List.replicate 16 9, rfl, by decide⟩ (by decide)).1.1,
   ((fl_local_transition small_mem ⟨17, 10, ⟨1, 0⟩⟩ [1, 2, 3] 3 0).1 (by decide)
      ⟨List.replicate 16 9, rfl, by decide⟩ (by decide)).1.2,
   ((fl_local_transition small_mem ⟨17, 10, ⟨1, 0⟩⟩ (List.replicate 7 1) 7 0).2.1 (by decide)
      (by unfold Heap.sizes_ok; decide) ⟨List.replicate 16 9, rfl, by decide⟩
      (by decide) (by decide)).1,
   ((fl_local_transition small_mem ⟨16, 10, ⟨1, 0⟩⟩ [] 0 0).2.2.2 (by decide)).2.2.2.2.2.1⟩

/-! ## C7: the fields of a duplicate -/

theorem fl_new_sized_init_size (h : Heap) (rec : fl_s) (size : Nat) (hsize : size < 2 ^ 64) :
    (fl_new_sized_init h rec size).2.size = fl_legal_size size := by
  have hlt := fl_legal_size_lt size hsize
  have hev := fl_legal_size_even size hsize
  unfold fl_new_sized_init
  simp only
  rw [(fl_init_fields _ _ _ _).2.2, fl_set_local_zero_size]
  simp only
  omega

theorem fl_duplicate_rec (h : Heap) (fl : fl_s) :
    (fl_duplicate h fl).2 =
      { (fl_new_sized_init h ⟨h.junk, h.junk, NULL⟩ (fm_size fl)).2 with used := fl.used } :=
  rfl

/-- What `fl_duplicate` computes for the fields of the duplicate: `fl_used` is the
source's, the descriptor is not local, and `fl_size` is `fl_legal_size` of the
source's capacity, which differs from the source's capacity when that capacity is
not a legal size. -/
theorem fl_duplicate_fields (h : Heap) (fl : fl_s) :
    fl_used (fl_duplicate h fl).2 = fl_used fl ∧
      fl_size (fl_duplicate h fl).2 = fl_legal_size (fl_size fl) ∧
      fl_get_local (fl_duplicate h fl).2 = 0 := by
  have hlt : fm_size fl < 2 ^ 64 := by have := fm_size_lt fl; omega
  have hsz := fl_new_sized_init_size h ⟨h.junk, h.junk, NULL⟩ (fm_size fl) hlt
  have hl := fl_legal_size_lt (fm_size fl) hlt
  have he := fl_legal_size_even (fm_size fl) hlt
  rw [fl_duplicate_rec]
  refine ⟨rfl, ?_, ?_⟩
  · unfold fl_size
    rw [fm_size_eq]
    simp only
    rw [hsz]
    omega
  · unfold fl_get_local
    rw [fl_local_eq]
    simp only
    rw [hsz]
    exact he

/-- C7 (code run at the failing input). A local descriptor made by `fl_use` over a
4096-byte array has capacity 4096; `fl_duplicate` passes that capacity through
`fl_new_sized`, which normalises it again, and the duplicate has capacity 4072,
not the source's. -/
theorem fl_duplicate_capacity_differs :
    (fl_use page_mem ⟨0, 0, NULL⟩ ⟨1, 0⟩ 4096).map
      (fun s => (fl_size s.2, fl_size (fl_duplicate s.1 s.2).2,
        decide (fl_size (fl_duplicate s.1 s.2).2 = fl_size s.2)))
      = some (4096, 4072, false) := by
  decide

/-! ## Stores that stay inside the block -/

theorem mem_read_congr {h h' : Heap} (p : Ptr) (n : Nat)
    (hb : h'.block p.blk = h.block p.blk) : mem_read h' p n = mem_read h p n := by
  unfold mem_read
  rw [hb]

theorem mem_write_fault (h : Heap) (p : Ptr) (bs cs : List Byte)
    (hb : h.block p.blk = some cs) (hin : p.off + bs.length ≤ cs.length) :
    (mem_write h p bs).fault = h.fault := by
  unfold mem_write
  split_ifs
  · rfl
  · rw [hb]
    simp [hin]

theorem mem_read_mem_write (h : Heap) (p : Ptr) (bs cs : List Byte)
    (hb : h.block p.blk = some cs) (hin : p.off + bs.length ≤ cs.length) :
    mem_read (mem_write h p bs) p bs.length = some bs := by
  unfold mem_read
  by_cases h0 : bs.length = 0
  · rw [if_pos h0]
    rw [List.length_eq_zero] at h0
    rw [h0]
  · rw [if_neg h0, mem_write_block h p bs cs hb, if_pos rfl]
    simp only
    rw [if_pos (by rw [splice_length]; exact hin), splice_read cs bs p.off hin]

theorem memcpy_item_read (h : Heap) (p : Ptr) (item cs : List Byte)
    (hb : h.block p.blk = some cs) (hin : p.off + item.length ≤ cs.length) :
    mem_read (memcpy_item h p item item.length) p item.length = some item ∧
      (memcpy_item h p item item.length).fault = h.fault := by
  unfold memcpy_item
  rw [if_pos (le_refl _), List.take_length]
  exact ⟨mem_read_mem_write h p item cs hb hin, mem_write_fault h p item cs hb hin⟩

theorem memset_fault (h : Heap) (p : Ptr) (v : Byte) (n : Nat) (cs : List Byte)
    (hb : h.block p.blk = some cs) (hin : p.off + n ≤ cs.length) :
    (memset h p v n).fault = h.fault := by
  unfold memset
  exact mem_write_fault h p _ cs hb (by simpa using hin)

theorem memset_block_length (h : Heap) (p : Ptr) (v : Byte) (n : Nat) (cs : List Byte)
    (b : Nat) (hb : h.block b = some cs) :
    ∃ cs1, (memset h p v n).block b = some cs1 ∧ cs1.length = cs.length := by
  unfold memset
  cases hp : h.block p.blk with
  | none => exact ⟨cs, by rw [mem_write_block_none h p _ hp, hb], rfl⟩
  | some cp =>
    rw [mem_write_block h p _ cp hp]
    by_cases he : b = p.blk
    · subst he
      rw [hb] at hp
      cases hp
      exact ⟨_, by rw [if_pos rfl], splice_length _ _ _⟩
    · exact ⟨cs, by rw [if_neg he, hb], rfl⟩

/-- After a successful `fl_resize_to` the descriptor has a block of exactly the new
size at `data`, and no access has left its block. -/
theorem fl_resize_to_region (h : Heap) (fl : fl_s) (n : Nat) (hn : n < 2 ^ 64)
    (hok : h.noFail) (hv : fl_data_valid h fl) :
    (∃ cs, (fl_resize_to h fl n).1.block (fl_resize_to h fl n).2.data.blk = some cs ∧
        (fl_resize_to h fl n).2.data.off = 0 ∧ cs.length = n) ∧
      (fl_resize_to h fl n).1.fault = h.fault := by
  by_cases hl : fl_get_local fl = 0
  · rcases hv hl with hd | ⟨hoff, hsome⟩
    · rw [fl_resize_to_null_eq h fl n hok hl hd, fl_set_local_data]
      have hnew := Heap.block_append h (some (List.replicate n h.junk))
        (h.blocks.length + 1) h.fails.tail
      rw [if_pos rfl] at hnew
      split_ifs with hgt
      · have hsub : sub64 n (fm_size fl) = n - fm_size fl := sub64_of_le _ _ (by omega) hn
        obtain ⟨cs1, hb1, hlen1⟩ := memset_block_length _
          ((⟨h.blocks.length + 1, 0⟩ : Ptr).add (fm_size fl)) 0 (sub64 n (fm_size fl)) _ _ hnew
        refine ⟨⟨cs1, hb1, rfl, by rw [hlen1]; simp⟩, ?_⟩
        exact memset_fault _ ((⟨h.blocks.length + 1, 0⟩ : Ptr).add (fm_size fl)) 0 _
          (List.replicate n h.junk) hnew
          (by rw [hsub]; simp only [Ptr.add, List.length_replicate]; omega)
      · exact ⟨⟨_, hnew, rfl, by simp⟩, rfl⟩
    · obtain ⟨cs, hb⟩ := Option.isSome_iff_exists.mp hsome
      obtain ⟨h0, hlen⟩ := Heap.block_some hb
      rw [fl_resize_to_owned_eq h fl n cs hok hl hb hoff, fl_set_local_data]
      have hnew := Heap.block_setBlock_fails h fl.data.blk
        (some (cs.take n ++ List.replicate (n - cs.length) h.junk)) h.fails.tail h0 hlen
      have hlen2 : (cs.take n ++ List.replicate (n - cs.length) h.junk).length = n := by
        simp; omega
      split_ifs with hgt
      · have hsub : sub64 n (fm_size fl) = n - fm_size fl := sub64_of_le _ _ (by omega) hn
        obtain ⟨cs1, hb1, hlen1⟩ := memset_block_length _
          (fl.data.add (fm_size fl)) 0 (sub64 n (fm_size fl)) _ _ hnew
        refine ⟨⟨cs1, hb1, hoff, by rw [hlen1, hlen2]⟩, ?_⟩
        exact memset_fault _ (fl.data.add (fm_size fl)) 0 _ _ hnew
          (by rw [hsub, hlen2]; simp only [Ptr.add, hoff]; omega)
      · exact ⟨⟨_, hnew, hoff, hlen2⟩, rfl⟩
  · rw [fl_resize_to_local_eq h fl n hok hl, fl_set_local_data]
    refine ⟨⟨List.replicate n 0, ?_, rfl, by simp⟩, rfl⟩
    rw [Heap.block_append]; simp

/-- The growth step keeps the descriptor on a block that holds its capacity. -/
theorem fl_grow_region (h : Heap) (fl : fl_s) (size : Nat)
    (hok : h.noFail) (hv : fl_data_valid h fl) (hr : fl_region h fl) :
    fl_region (fl_grow h fl size).1 (fl_grow h fl size).2 ∧
      (fl_grow h fl size).1.fault = h.fault := by
  unfold fl_grow fl_resize
  simp only
  split_ifs with h1 h2
  · have hlt : fl_legal_size (mul64 (fm_size fl) 2) < 2 ^ 64 :=
      fl_legal_size_lt _ (by unfold mul64; omega)
    have hev : fl_legal_size (mul64 (fm_size fl) 2) % 2 = 0 :=
      fl_legal_size_even _ (by unfold mul64; omega)
    obtain ⟨⟨cs, hb, hoff, hlen⟩, hf⟩ := fl_resize_to_region h fl _ hlt hok hv
    refine ⟨⟨cs, hb, ?_⟩, hf⟩
    rw [hoff, fm_size_eq, fl_resize_to_size, hlen]
    omega
  · exact ⟨hr, rfl⟩
  · exact ⟨hr, rfl⟩

/-- Push then pop when the item fits in the capacity that the push leaves: the
view starts at the old `used`, reads back the item, `used` is restored and no
access has left its block. -/
theorem fl_push_pop_roundtrip (h : Heap) (fl : fl_s) (item : List Byte)
    (hok : h.noFail) (hv : fl_data_valid h fl) (hr : fl_region h fl)
    (hfit : fl.used + item.length ≤ fl_size (fl_push h fl item item.length).2) :
    (fl_pop (fl_push h fl item item.length).1 (fl_push h fl item item.length).2
        item.length).2.2 = (fl_data (fl_push h fl item item.length).2).add fl.used ∧
      mem_read (fl_push h fl item item.length).1
        ((fl_data (fl_push h fl item item.length).2).add fl.used) item.length = some item ∧
      fl_used (fl_pop (fl_push h fl item item.length).1 (fl_push h fl item item.length).2
        item.length).2.1 = fl.used ∧
      (fl_push h fl item item.length).1.fault = h.fault := by
  have hpe : fl_push h fl item item.length = fl_add h fl item item.length := by
    rw [fl_push_eq, fl_push_new_of_data h fl (fl_region_data_ne hr)]
  rw [hpe] at hfit ⊢
  obtain ⟨⟨cs, hb, hle⟩, hf⟩ := fl_grow_region h fl item.length hok hv hr
  have hgu := fl_grow_used h fl item.length
  have hcap := fm_size_lt (fl_grow h fl item.length).2
  rw [fl_add_eq] at hfit ⊢
  simp only [fl_size_with_used] at hfit
  unfold fl_size at hfit
  simp only [fl_data, hgu] at hfit ⊢
  have hadd : add64 fl.used item.length = fl.used + item.length := by
    unfold add64; omega
  obtain ⟨hrd, hft⟩ := memcpy_item_read (fl_grow h fl item.length).1
    ((fl_grow h fl item.length).2.data.add fl.used) item cs hb
    (by simp only [Ptr.add]; omega)
  refine ⟨?_, hrd, ?_, by rw [hft, hf]⟩
  · unfold fl_pop
    simp only [hadd]
    rw [if_pos (by omega), sub64_of_le _ _ (by omega) (by omega)]
    simp
  · unfold fl_pop fl_used
    simp only [hadd]
    rw [if_pos (by omega), sub64_of_le _ _ (by omega) (by omega)]
    simp

theorem mem_read_length (h : Heap) (p : Ptr) (n : Nat) (bs : List Byte)
    (hrd : mem_read h p n = some bs) : bs.length = n := by
  unfold mem_read at hrd
  by_cases h0 : n = 0
  · rw [if_pos h0] at hrd
    cases hrd
    exact h0.symm
  · rw [if_neg h0] at hrd
    cases hb : h.block p.blk with
    | none => rw [hb] at hrd; cases hrd
    | some cs =>
      rw [hb] at hrd
      simp only at hrd
      split_ifs at hrd with hin
      cases hrd
      simp
      omega

theorem mem_read_region (h : Heap) (fl : fl_s) (n : Nat) (hr : fl_region h fl)
    (hn : n ≤ fm_size fl) : ∃ bs, mem_read h fl.data n = some bs := by
  obtain ⟨cs, hb, hle⟩ := hr
  unfold mem_read
  by_cases h0 : n = 0
  · exact ⟨[], by rw [if_pos h0]⟩
  · rw [if_neg h0, hb]
    simp only
    rw [if_pos (by omega)]
    exact ⟨_, rfl⟩

/-- When the duplicate's capacity holds `used` bytes and the allocation succeeds,
`fl_duplicate` copies the source bytes `[0, used)`, leaves the source block as it
was and makes no access outside a block. -/
theorem fl_duplicate_copies (h : Heap) (fl : fl_s) (hok : h.noFail) (hr : fl_region h fl)
    (hu : fl.used ≤ fl_size fl) (hcap : fl.used ≤ fl_legal_size (fl_size fl)) :
    ∃ bs, mem_read h fl.data fl.used = some bs ∧
      mem_read (fl_duplicate h fl).1 (fl_data (fl_duplicate h fl).2) fl.used = some bs ∧
      (fl_duplicate h fl).1.block fl.data.blk = h.block fl.data.blk ∧
      (fl_duplicate h fl).1.fault = h.fault := by
  obtain ⟨bs, hrd⟩ := mem_read_region h fl fl.used hr hu
  have hbl := mem_read_length h fl.data fl.used bs hrd
  obtain ⟨cs, hb, _⟩ := hr
  obtain ⟨h0, hlen⟩ := Heap.block_some hb
  have hne : fl.data.blk ≠ h.blocks.length + 1 := by omega
  have hnew := Heap.block_append h (some (List.replicate (fl_legal_size (fm_size fl)) 0))
    (h.blocks.length + 1) h.fails.tail
  rw [if_pos rfl] at hnew
  have hsrc := Heap.block_append h (some (List.replicate (fl_legal_size (fm_size fl)) 0))
    fl.data.blk h.fails.tail
  rw [if_neg hne] at hsrc
  have heq : fl_duplicate h fl =
      (memcpy { h with blocks := h.blocks ++ [some (List.replicate (fl_legal_size (fm_size fl)) 0)],
                       fails := h.fails.tail }
          ⟨h.blocks.length + 1, 0⟩ fl.data fl.used,
        { fl_init ⟨h.junk, h.junk, NULL⟩ (fl_legal_size (fm_size fl))
            ⟨h.blocks.length + 1, 0⟩ 0 with used := fl.used }) := by
    unfold fl_duplicate fl_new_sized_init
    simp only
    rw [fl_malloc_ok h _ hok]
    simp only
    rw [(fl_init_fields _ _ _ _).2.1]
  have hdata : fl_data (fl_duplicate h fl).2 = ⟨h.blocks.length + 1, 0⟩ := by
    rw [heq]
    exact (fl_init_fields ⟨h.junk, h.junk, NULL⟩ (fl_legal_size (fm_size fl))
      ⟨h.blocks.length + 1, 0⟩ 0).2.1
  rw [hdata, heq]
  simp only
  unfold memcpy
  rw [mem_read_congr fl.data fl.used hsrc, hrd]
  simp only
  have hin : (⟨h.blocks.length + 1, 0⟩ : Ptr).off + bs.length
      ≤ (List.replicate (fl_legal_size (fm_size fl)) 0).length := by
    unfold fl_size at hcap
    simp only [List.length_replicate]
    omega
  refine ⟨bs, rfl, ?_, ?_, ?_⟩
  · rw [← hbl]
    exact mem_read_mem_write _ _ bs _ hnew hin
  · rw [mem_write_block _ _ bs _ hnew, if_neg hne, hsrc]
  · exact mem_write_fault _ _ bs _ hnew hin

/-! ## What `fl_use` hands over -/

theorem mem_write_sizes_ok (h : Heap) (p : Ptr) (bs : List Byte) (hs : h.sizes_ok) :
    (mem_write h p bs).sizes_ok := by
  unfold mem_write
  split_ifs
  · exact hs
  · cases hb : h.block p.blk with
    | none => exact hs
    | some cs =>
      intro o ho cs1 hcs1
      rcases List.mem_or_eq_of_mem_set ho with hmem | heq
      · exact hs o hmem cs1 hcs1
      · subst heq
        cases hcs1
        rw [splice_length]
        exact Heap.sizes_ok_block hs hb

/-- A descriptor made by `fl_use` over `size` bytes that exist at `mem` is local,
empty, holds its region, and the call stays inside the block. -/
theorem fl_use_region (h : Heap) (fl : fl_s) (mem : Ptr) (size : Nat) (cs : List Byte)
    (h2 : 2 ≤ size) (hsize : size < 2 ^ 64) (hb : h.block mem.blk = some cs)
    (hin : mem.off + size ≤ cs.length) :
    ∃ h1 fl1, fl_use h fl mem size = some (h1, fl1) ∧ fl_get_local fl1 = 1 ∧
      fl_used fl1 = 0 ∧ fl_data fl1 = mem ∧ fl_size fl1 = 2 * (size / 2) ∧
      fl_region h1 fl1 ∧ h1.fault = h.fault ∧ (h.sizes_ok → h1.sizes_ok) := by
  obtain ⟨hu, hd, hsz⟩ := fl_init_fields fl size mem 1
  have hsz1 : (fl_init fl size mem 1).size = 2 * (size / 2) + 1 := by
    rw [hsz, fl_set_local_one_size]
  have hfm : fm_size (fl_init fl size mem 1) = 2 * (size / 2) := by
    rw [fm_size_eq, hsz1]
    omega
  refine ⟨memset h (fl_init fl size mem 1).data 0 size, fl_init fl size mem 1, ?_, ?_, hu, hd,
    hfm, ?_, ?_, ?_⟩
  · unfold fl_use FL_MIN_SIZE
    rw [if_pos h2]
  · unfold fl_get_local
    rw [fl_local_eq, hsz1]
    omega
  · rw [hd]
    obtain ⟨cs1, hb1, hlen1⟩ := memset_block_length h mem 0 size cs mem.blk hb
    exact ⟨cs1, by rw [hd]; exact hb1, by rw [hd, hfm, hlen1]; omega⟩
  · rw [hd]
    exact memset_fault h mem 0 size cs hb hin
  · intro hs
    exact mem_write_sizes_ok _ _ _ hs

/-! ## C2, C3, C8: the code run on inputs where the buffer is too small -/

/-- C2 (code run at the failing input). After `fl_new` (capacity 16) one `fl_push`
of a 33-byte item doubles the capacity once, to 32, stores past the end of the
buffer and leaves `fl_used = 33 > 32 = fl_size`. -/
theorem fl_push_used_exceeds_size :
    fl_size (fl_new Heap.empty NULL ⟨0, 0, NULL⟩).2.2 = 16 ∧
    fl_used (fl_push (fl_new Heap.empty NULL ⟨0, 0, NULL⟩).1
      (fl_new Heap.empty NULL ⟨0, 0, NULL⟩).2.2 (List.replicate 33 7) 33).2 = 33 ∧
    fl_size (fl_push (fl_new Heap.empty NULL ⟨0, 0, NULL⟩).1
      (fl_new Heap.empty NULL ⟨0, 0, NULL⟩).2.2 (List.replicate 33 7) 33).2 = 32 ∧
    (fl_push (fl_new Heap.empty NULL ⟨0, 0, NULL⟩).1
      (fl_new Heap.empty NULL ⟨0, 0, NULL⟩).2.2 (List.replicate 33 7) 33).1.fault = true := by
  decide

/-- C3 (code run at the failing input). After `fl_new_sized( NULL, 12 )` an
`fl_push` of a 25-byte item grows the buffer to 24 bytes only; the `fl_pop` that
follows returns `data + 0` and restores `used = 0`, but the 25 bytes of the view
are not inside the buffer and the store has left the block. -/
theorem fl_push_pop_oversize :
    fl_size (fl_push (fl_new_sized Heap.empty NULL ⟨0, 0, NULL⟩ 12).1
      (fl_new_sized Heap.empty NULL ⟨0, 0, NULL⟩ 12).2.2 (List.range 25) 25).2 = 24 ∧
    (fl_pop
      (fl_push (fl_new_sized Heap.empty NULL ⟨0, 0, NULL⟩ 12).1
        (fl_new_sized Heap.empty NULL ⟨0, 0, NULL⟩ 12).2.2 (List.range 25) 25).1
      (fl_push (fl_new_sized Heap.empty NULL ⟨0, 0, NULL⟩ 12).1
        (fl_new_sized Heap.empty NULL ⟨0, 0, NULL⟩ 12).2.2 (List.range 25) 25).2 25).2
      = (⟨24, 0, ⟨2, 0⟩⟩, ⟨2, 0⟩) ∧
    mem_read
      (fl_push (fl_new_sized Heap.empty NULL ⟨0, 0, NULL⟩ 12).1
        (fl_new_sized Heap.empty NULL ⟨0, 0, NULL⟩ 12).2.2 (List.range 25) 25).1
      ⟨2, 0⟩ 25 = none ∧
    (fl_push (fl_new_sized Heap.empty NULL ⟨0, 0, NULL⟩ 12).1
      (fl_new_sized Heap.empty NULL ⟨0, 0, NULL⟩ 12).2.2 (List.range 25) 25).1.fault = true := by
  decide

set_option maxRecDepth 100000 in
/-- C8 (code run at the failing input). A local descriptor made by `fl_use` over a
4096-byte array and filled by one `fl_push` of 4096 bytes (which fits, without a
fault) is duplicated into a buffer of `fl_legal_size 4096 = 4072` bytes: the copy
of `used = 4096` bytes leaves the block and the duplicate's buffer does not hold
the bytes `[0, used)`. -/
theorem fl_duplicate_overflows_page :
    page_full.map (fun q => (fl_get_local q.2, fl_used q.2, fl_size q.2, q.1.fault))
      = some (1, 4096, 4096, false) ∧
    page_dup.map (fun d => (fl_used d.2, fl_size d.2, d.1.fault,
        (mem_read d.1 (fl_data d.2) (fl_used d.2)).isSome))
      = some (4096, 4072, true, false) := by
  decide!

/-! ## C11: what `fl_new_sized` and `fl_new` create -/

theorem fl_new_sized_rec (h : Heap) (fl : fl_t) (rec : fl_s) (size : Nat) (hok : h.noFail) :
    (fl_new_sized h fl rec size).2.2 =
      (fl_new_sized_init (fl_allocate_descriptor_if h fl).1
        (if fl = NULL then (⟨0, 0, NULL⟩ : fl_s) else rec) size).2 := by
  obtain ⟨_, hne⟩ := fl_allocate_descriptor_if_ok h fl hok
  unfold fl_new_sized
  simp only
  rw [if_neg hne]

theorem fl_legal_size_small (size : Nat) (he : size % 2 = 0) (h2 : 2 ≤ size)
    (hlt : size < 4096) : fl_legal_size size = size := by
  rw [fl_legal_size_of_even size he h2, fl_align_size_eq]
  split_ifs <;> omega

/-- C11. When every allocation succeeds, `fl_new_sized` with a 64-bit `size` returns
a descriptor (not `NULL`) with `fl_size = fl_legal_size size`, `fl_used = 0`, not
local, `fl_is_empty = 1` and `fl_is_full = 0`; for every even `size` with
`2 <= size < 4096` the capacity is exactly `size`, and `fl_new` gives capacity
`FL_DEFAULT_SIZE = 16`. -/
theorem fl_new_sized_spec (h : Heap) (fl : fl_t) (rec : fl_s) (size : Nat)
    (hsize : size < 2 ^ 64) (hok : h.noFail) :
    ((fl_new_sized h fl rec size).2.1 ≠ NULL ∧
      fl_size (fl_new_sized h fl rec size).2.2 = fl_legal_size size ∧
      fl_used (fl_new_sized h fl rec size).2.2 = 0 ∧
      fl_get_local (fl_new_sized h fl rec size).2.2 = 0 ∧
      fl_is_empty (fl_new_sized h fl rec size).2.2 = 1 ∧
      fl_is_full (fl_new_sized h fl rec size).2.2 = 0) ∧
    (size % 2 = 0 → 2 ≤ size → size < 4096 →
      fl_size (fl_new_sized h fl rec size).2.2 = size) ∧
    fl_size (fl_new h fl rec).2.2 = FL_DEFAULT_SIZE ∧ FL_DEFAULT_SIZE = 16 := by
  have key : ∀ sz, sz < 2 ^ 64 →
      (fl_new_sized h fl rec sz).2.1 ≠ NULL ∧
      fl_size (fl_new_sized h fl rec sz).2.2 = fl_legal_size sz ∧
      fl_used (fl_new_sized h fl rec sz).2.2 = 0 ∧
      fl_get_local (fl_new_sized h fl rec sz).2.2 = 0 ∧
      fl_is_empty (fl_new_sized h fl rec sz).2.2 = 1 ∧
      fl_is_full (fl_new_sized h fl rec sz).2.2 = 0 := by
    intro sz hsz
    obtain ⟨hne, _, ⟨hl, hd, _, _⟩, hu⟩ := fl_new_sized_ok h fl rec sz hok
    have hlt := fl_legal_size_lt sz hsz
    have hev := fl_legal_size_even sz hsz
    have h2 := (fl_legal_size_ge_two sz hsz)
    have hfm : fm_size (fl_new_sized h fl rec sz).2.2 = fl_legal_size sz := by
      rw [fm_size_eq, fl_new_sized_rec h fl rec sz hok, fl_new_sized_init_size _ _ _ hsz]
      omega
    refine ⟨hne, hfm, hu, hl, ?_, ?_⟩
    · unfold fl_is_empty fl_true
      rw [if_neg hd, if_pos hu]
    · unfold fl_is_full fl_false
      rw [if_neg hd, if_neg (by rw [hfm, hu]; omega)]
  refine ⟨key size hsize, ?_, ?_, rfl⟩
  · intro he h2 hlt
    rw [(key size hsize).2.1, fl_legal_size_small size he h2 hlt]
  · have := (key FL_DEFAULT_SIZE (by unfold FL_DEFAULT_SIZE; norm_num)).2.1
    unfold fl_new
    rw [this]
    exact fl_legal_size_small 16 (by norm_num) (by norm_num) (by norm_num)

/-- Witness for C11: the request 12 of the test and the default size, in the empty
memory with a descriptor allocated here. -/
theorem fl_new_sized_spec_witness :
    (12 : Nat) < 2 ^ 64 ∧ Heap.empty.noFail ∧
    fl_size (fl_new_sized Heap.empty NULL ⟨0, 0, NULL⟩ 12).2.2 = 12 ∧
    fl_is_empty (fl_new_sized Heap.empty NULL ⟨0, 0, NULL⟩ 12).2.2 = 1 ∧
    fl_size (fl_new Heap.empty NULL ⟨0, 0, NULL⟩).2.2 = FL_DEFAULT_SIZE :=
  ⟨by norm_num, by decide,
   (fl_new_sized_spec Heap.empty NULL ⟨0, 0, NULL⟩ 12 (by norm_num) (by decide)).2.1
     (by norm_num) (by norm_num) (by norm_num),
   (fl_new_sized_spec Heap.empty NULL ⟨0, 0, NULL⟩ 12 (by norm_num) (by decide)).1.2.2.2.2.1,
   (fl_new_sized_spec Heap.empty NULL ⟨0, 0, NULL⟩ 12 (by norm_num) (by decide)).2.2.1⟩

/-! ## C12: what `fl_use` sets up -/

theorem memset_read (h : Heap) (p : Ptr) (v : Byte) (n : Nat) (cs : List Byte)
    (hb : h.block p.blk = some cs) (hin : p.off + n ≤ cs.length) :
    mem_read (memset h p v n) p n = some (List.replicate n v) := by
  have := mem_read_mem_write h p (List.replicate n v) cs hb (by simpa using hin)
  rw [List.length_replicate] at this
  exact this

/-- C12. For a 64-bit `size >= 2` and `size` bytes that exist at `mem`, `fl_use`
returns (the assertion holds) a descriptor with `fl_get_local = 1`, `fl_used = 0`,
`fl_data = mem`, the `size` bytes at `mem` all zero, and `fl_size` the largest
even number not exceeding `size` (so `size` itself when `size` is even). -/
theorem fl_use_spec (h : Heap) (fl : fl_s) (mem : Ptr) (size : Nat) (cs : List Byte)
    (h2 : 2 ≤ size) (hsize : size < 2 ^ 64) (hb : h.block mem.blk = some cs)
    (hin : mem.off + size ≤ cs.length) :
    ∃ h1 fl1, fl_use h fl mem size = some (h1, fl1) ∧
      fl_get_local fl1 = 1 ∧ fl_used fl1 = 0 ∧ fl_data fl1 = mem ∧
      mem_read h1 mem size = some (List.replicate size 0) ∧
      fl_size fl1 % 2 = 0 ∧ fl_size fl1 ≤ size ∧ size < fl_size fl1 + 2 ∧
      (size % 2 = 0 → fl_size fl1 = size) := by
  obtain ⟨hu, hd, hsz⟩ := fl_init_fields fl size mem 1
  have hsz1 : (fl_init fl size mem 1).size = 2 * (size / 2) + 1 := by
    rw [hsz, fl_set_local_one_size]
  have hfm : fl_size (fl_init fl size mem 1) = 2 * (size / 2) := by
    unfold fl_size
    rw [fm_size_eq, hsz1]
    omega
  refine ⟨memset h (fl_init fl size mem 1).data 0 size, fl_init fl size mem 1, ?_, ?_, hu, hd,
    ?_, ?_, ?_, ?_, ?_⟩
  · unfold fl_use FL_MIN_SIZE
    rw [if_pos h2]
  · unfold fl_get_local
    rw [fl_local_eq, hsz1]
    omega
  · rw [hd]
    exact memset_read h mem 0 size cs hb hin
  · rw [hfm]; omega
  · rw [hfm]; omega
  · rw [hfm]; omega
  · intro he
    rw [hfm]; omega

/-- Witness for C12: the 16-byte array of `small_mem` adopted whole. -/
theorem fl_use_spec_witness :
    ∃ h1 fl1, fl_use small_mem ⟨0, 0, NULL⟩ ⟨1, 0⟩ 16 = some (h1, fl1) ∧
      fl_get_local fl1 = 1 ∧ fl_used fl1 = 0 ∧ fl_data fl1 = ⟨1, 0⟩ ∧
      mem_read h1 ⟨1, 0⟩ 16 = some (List.replicate 16 0) ∧
      fl_size fl1 % 2 = 0 ∧ fl_size fl1 ≤ 16 ∧ 16 < fl_size fl1 + 2 ∧
      (16 % 2 = 0 → fl_size fl1 = 16) :=
  fl_use_spec small_mem ⟨0, 0, NULL⟩ ⟨1, 0⟩ 16 (List.replicate 16 9)
    (by norm_num) (by norm_num) rfl (by decide)

/-! ## The log of `fl_free` and the block numbers across the operations -/

theorem fl_free_freed (h : Heap) (p : Ptr) : (fl_free h p).freed = p :: h.freed := by
  unfold fl_free
  split_ifs
  · rfl
  · cases h.block p.blk <;> rfl

theorem mem_write_freed (h : Heap) (p : Ptr) (bs : List Byte) :
    (mem_write h p bs).freed = h.freed := by
  unfold mem_write
  split_ifs
  · rfl
  · cases h.block p.blk <;> rfl

theorem mem_write_blocks_length (h : Heap) (p : Ptr) (bs : List Byte) :
    (mem_write h p bs).blocks.length = h.blocks.length := by
  unfold mem_write
  split_ifs
  · rfl
  · cases h.block p.blk with
    | none => rfl
    | some cs => simp [Heap.setBlock]

theorem memcpy_item_freed (h : Heap) (p : Ptr) (item : List Byte) (n : Nat) :
    (memcpy_item h p item n).freed = h.freed ∧
      (memcpy_item h p item n).blocks.length = h.blocks.length := by
  unfold memcpy_item
  split_ifs
  · exact ⟨mem_write_freed _ _ _, mem_write_blocks_length _ _ _⟩
  · exact ⟨mem_write_freed _ _ _, mem_write_blocks_length _ _ _⟩

theorem fl_malloc_cases (h : Heap) (n : Nat) :
    (fl_malloc h n).1.freed = h.freed ∧
      h.blocks.length ≤ (fl_malloc h n).1.blocks.length ∧
      ((fl_malloc h n).2 = NULL ∨ (fl_malloc h n).2 = ⟨h.blocks.length + 1, 0⟩) := by
  unfold fl_malloc
  cases hf : h.fails with
  | nil => exact ⟨rfl, by simp, Or.inr rfl⟩
  | cons b rest =>
    cases b
    · exact ⟨rfl, by simp, Or.inr rfl⟩
    · exact ⟨rfl, le_refl _, Or.inl rfl⟩

theorem fl_realloc_cases (h : Heap) (p : Ptr) (n : Nat) :
    (fl_realloc h p n).1.freed = h.freed ∧
      h.blocks.length ≤ (fl_realloc h p n).1.blocks.length ∧
      ((fl_realloc h p n).2 = NULL ∨ (fl_realloc h p n).2 = ⟨h.blocks.length + 1, 0⟩ ∨
        (fl_realloc h p n).2 = p) := by
  unfold fl_realloc
  split_ifs with hp h0
  · cases hf : h.fails with
    | nil => exact ⟨rfl, by simp, Or.inr (Or.inl rfl)⟩
    | cons b rest =>
      cases b
      · exact ⟨rfl, by simp, Or.inr (Or.inl rfl)⟩
      · exact ⟨rfl, le_refl _, Or.inl rfl⟩
  · cases hb : h.block p.blk with
    | none => exact ⟨rfl, le_refl _, Or.inl rfl⟩
    | some cs =>
      cases hf : h.fails with
      | nil => exact ⟨rfl, by simp [Heap.setBlock], Or.inr (Or.inr rfl)⟩
      | cons b rest =>
        cases b
        · exact ⟨rfl, by simp [Heap.setBlock], Or.inr (Or.inr rfl)⟩
        · exact ⟨rfl, le_refl _, Or.inl rfl⟩
  · cases hb : h.block p.blk with
    | none => exact ⟨rfl, le_refl _, Or.inl rfl⟩
    | some cs => exact ⟨rfl, le_refl _, Or.inl rfl⟩

theorem fl_resize_to_local_gen (h : Heap) (fl : fl_s) (n : Nat) (hl : fl_get_local fl ≠ 0) :
    fl_resize_to h fl n =
      ((fl_malloc h n).1,
        fl_set_local { fl with data := (fl_malloc h n).2, size := n } 0) := by
  unfold fl_resize_to
  rw [if_pos hl]

theorem fl_resize_to_nonlocal_gen (h : Heap) (fl : fl_s) (n : Nat)
    (hl : fl_get_local fl = 0) :
    fl_resize_to h fl n =
      (if n > fm_size fl then
          memset (fl_realloc h fl.data n).1 ((fl_realloc h fl.data n).2.add (fm_size fl)) 0
            (sub64 n (fm_size fl))
        else (fl_realloc h fl.data n).1,
        fl_set_local { fl with data := (fl_realloc h fl.data n).2, size := n } 0) := by
  unfold fl_resize_to
  rw [if_neg (by simp [hl])]
  simp only
  split_ifs <;> rfl

theorem fl_apart_store {mem : Ptr} {frd : List Ptr} {h : Heap} {fl : fl_s}
    (ha : fl_apart mem frd h fl) (p : Ptr) (bs : List Byte) :
    fl_apart mem frd (mem_write h p bs) fl := by
  obtain ⟨hf, h0, hle, hd⟩ := ha
  exact ⟨by rw [mem_write_freed, hf], h0, by rw [mem_write_blocks_length]; exact hle, hd⟩

theorem fl_apart_item {mem : Ptr} {frd : List Ptr} {h : Heap} {fl : fl_s}
    (ha : fl_apart mem frd h fl) (p : Ptr) (item : List Byte) (n : Nat) :
    fl_apart mem frd (memcpy_item h p item n) fl := by
  obtain ⟨hf, h0, hle, hd⟩ := ha
  obtain ⟨hf1, hl1⟩ := memcpy_item_freed h p item n
  exact ⟨by rw [hf1, hf], h0, by rw [hl1]; exact hle, hd⟩

theorem fl_apart_used {mem : Ptr} {frd : List Ptr} {h : Heap} {fl : fl_s}
    (ha : fl_apart mem frd h fl) (u : Nat) :
    fl_apart mem frd h { fl with used := u } := ha

theorem fl_apart_resize_to {mem : Ptr} {frd : List Ptr} {h : Heap} {fl : fl_s}
    (ha : fl_apart mem frd h fl) (n : Nat) :
    fl_apart mem frd (fl_resize_to h fl n).1 (fl_resize_to h fl n).2 := by
  obtain ⟨hf, h0, hle, hd⟩ := ha
  by_cases hl : fl_get_local fl = 0
  · obtain ⟨hfr, hlen, hp⟩ := fl_realloc_cases h fl.data n
    have hdb : fl.data.blk ≠ mem.blk := by
      rcases hd with ⟨hl1, _⟩ | ⟨_, hne⟩
      · exact absurd hl hl1
      · exact hne
    rw [fl_resize_to_nonlocal_gen h fl n hl]
    refine ⟨?_, h0, ?_, Or.inr ⟨fl_get_local_set_zero _, ?_⟩⟩
    · simp only
      split_ifs
      · unfold memset; rw [mem_write_freed, hfr, hf]
      · rw [hfr, hf]
    · simp only
      split_ifs
      · unfold memset; rw [mem_write_blocks_length]; omega
      · omega
    · rw [fl_set_local_data]
      simp only
      rcases hp with hp | hp | hp
      · rw [hp]; exact fun hc => h0 hc.symm
      · rw [hp]; simp only; omega
      · rw [hp]; exact hdb
  · obtain ⟨hfr, hlen, hp⟩ := fl_malloc_cases h n
    rw [fl_resize_to_local_gen h fl n hl]
    refine ⟨by rw [hfr, hf], h0, le_trans hle hlen, Or.inr ⟨fl_get_local_set_zero _, ?_⟩⟩
    rw [fl_set_local_data]
    simp only
    rcases hp with hp | hp
    · rw [hp]; exact fun hc => h0 hc.symm
    · rw [hp]; simp only; omega

theorem fl_apart_resize {mem : Ptr} {frd : List Ptr} {h : Heap} {fl : fl_s}
    (ha : fl_apart mem frd h fl) (n : Nat) :
    fl_apart mem frd (fl_resize h fl n).1 (fl_resize h fl n).2 := by
  unfold fl_resize
  simp only
  split_ifs
  · exact fl_apart_resize_to ha _
  · exact ha

theorem fl_apart_grow {mem : Ptr} {frd : List Ptr} {h : Heap} {fl : fl_s}
    (ha : fl_apart mem frd h fl) (size : Nat) :
    fl_apart mem frd (fl_grow h fl size).1 (fl_grow h fl size).2 := by
  unfold fl_grow
  split_ifs
  · exact fl_apart_resize ha _
  · exact ha

theorem fl_apart_push_new {mem : Ptr} {frd : List Ptr} {h : Heap} {fl : fl_s}
    (ha : fl_apart mem frd h fl) :
    fl_apart mem frd (fl_push_new h fl).1 (fl_push_new h fl).2 := by
  unfold fl_push_new
  split_ifs with hd
  · obtain ⟨hf, h0, hle, _⟩ := ha
    obtain ⟨hfr, hlen, hp⟩ := fl_malloc_cases h (fl_legal_size FL_DEFAULT_SIZE)
    obtain ⟨_, hdat, hsz⟩ := fl_init_fields fl (fl_legal_size FL_DEFAULT_SIZE)
      (fl_malloc h (fl_legal_size FL_DEFAULT_SIZE)).2 0
    unfold fl_new_sized_init
    simp only
    refine ⟨by rw [hfr, hf], h0, le_trans hle hlen, Or.inr ⟨?_, ?_⟩⟩
    · unfold fl_get_local
      rw [fl_local_eq, hsz, fl_set_local_zero_size]
      omega
    · rw [hdat]
      rcases hp with hp | hp
      · rw [hp]; exact fun hc => h0 hc.symm
      · rw [hp]; simp only; omega
  · exact ha

theorem fl_apart_step {mem : Ptr} {frd : List Ptr} {h : Heap} {fl : fl_s}
    (ha : fl_apart mem frd h fl) (op : fl_op) :
    fl_apart mem frd (fl_step h fl op).1 (fl_step h fl op).2 := by
  have hadd : ∀ (h1 : Heap) (fl1 : fl_s) (item : List Byte) (size : Nat),
      fl_apart mem frd h1 fl1 →
      fl_apart mem frd (fl_add h1 fl1 item size).1 (fl_add h1 fl1 item size).2 := by
    intro h1 fl1 item size ha1
    rw [fl_add_eq]
    exact fl_apart_used (fl_apart_item (fl_apart_grow ha1 size) _ item size) _
  cases op with
  | push item size =>
    show fl_apart mem frd (fl_push h fl item size).1 (fl_push h fl item size).2
    rw [fl_push_eq]
    exact hadd _ _ item size (fl_apart_push_new ha)
  | add item size => exact hadd h fl item size ha
  | alloc size =>
    show fl_apart mem frd (fl_alloc h fl size).1 (fl_alloc h fl size).2.1
    rw [fl_alloc_eq]
    exact fl_apart_used (fl_apart_grow ha size) _
  | pop size =>
    show fl_apart mem frd (fl_pop h fl size).1 (fl_pop h fl size).2.1
    unfold fl_pop
    split_ifs
    · exact fl_apart_used ha _
    · exact ha
  | reset => exact fl_apart_used ha 0
  | clear =>
    show fl_apart mem frd (fl_clear h fl).1 (fl_clear h fl).2
    unfold fl_clear memset
    exact fl_apart_store (fl_apart_used ha 0) _ _
  | resize new_size => exact fl_apart_resize ha new_size

theorem fl_apart_run {mem : Ptr} {frd : List Ptr} (ops : List fl_op) :
    ∀ (h : Heap) (fl : fl_s), fl_apart mem frd h fl →
      fl_apart mem frd (fl_run h fl ops).1 (fl_run h fl ops).2 := by
  induction ops with
  | nil => intro h fl ha; exact ha
  | cons op rest ih =>
    intro h fl ha
    have := ih _ _ (fl_apart_step ha op)
    unfold fl_run at this ⊢
    rw [List.foldl_cons]
    exact this

/-! ## C13, C14, C15: releasing -/

theorem fl_destroy_storage_eq (h : Heap) (fl : fl_t) (rec : fl_s) (hfl : fl ≠ NULL) :
    fl_destroy_storage h fl rec =
      (if rec.data ≠ NULL ∧ fl_local rec = 0 then fl_free h rec.data else h,
        fl_set_size { rec with data := NULL } 0) := by
  unfold fl_destroy_storage
  rw [if_neg hfl]

theorem fl_destroy_storage_freed (h : Heap) (fl : fl_t) (rec : fl_s) (hfl : fl ≠ NULL) :
    (fl_destroy_storage h fl rec).1.freed =
      if rec.data ≠ NULL ∧ fl_get_local rec = 0 then rec.data :: h.freed else h.freed := by
  rw [fl_destroy_storage_eq h fl rec hfl]
  unfold fl_get_local
  simp only
  split_ifs
  · exact fl_free_freed _ _
  · rfl

/-- What `fl_destroy_storage` leaves in the record of a descriptor that is not `NULL`:
no data, capacity 0, the local flag and `used` as they were. -/
theorem fl_destroy_storage_fields (h : Heap) (fl : fl_t) (rec : fl_s) (hfl : fl ≠ NULL) :
    fl_data (fl_destroy_storage h fl rec).2 = NULL ∧
      fl_size (fl_destroy_storage h fl rec).2 = 0 ∧
      fl_used (fl_destroy_storage h fl rec).2 = fl_used rec ∧
      fl_get_local (fl_destroy_storage h fl rec).2 = fl_get_local rec := by
  rw [fl_destroy_storage_eq h fl rec hfl]
  have hcases : fl_local rec = 0 ∨ fl_local rec = 1 := by
    rw [fl_local_eq]; omega
  have hloc : fl_local ({ rec with data := NULL } : fl_s) = fl_local rec := rfl
  unfold fl_data fl_size fl_used fl_get_local fl_set_size fl_get_local
  simp only
  rw [hloc]
  rcases hcases with hl | hl
  · rw [hl]
    refine ⟨by rw [fl_set_local_data], ?_, by rw [fl_set_local_used], ?_⟩
    · rw [fm_size_eq, fl_set_local_zero_size]
      simp only
    · rw [fl_local_eq, fl_set_local_zero_size]
      simp only
  · rw [hl]
    refine ⟨by rw [fl_set_local_data], ?_, by rw [fl_set_local_used], ?_⟩
    · rw [fm_size_eq, fl_set_local_one_size]
      simp only
    · rw [fl_local_eq, fl_set_local_one_size]
      simp only

/-- C13 (code run at the failing input). After `fl_new( &fs )` and one `fl_push` of
5 bytes, `fl_destroy_storage` leaves `data = NULL` and `fl_size = 0` but
`fl_used = 5`: the `used` field is not reset. -/
theorem fl_destroy_storage_keeps_used :
    fl_data (fl_destroy_storage
      (fl_push (fl_new slot_mem ⟨1, 0⟩ ⟨0, 0, NULL⟩).1
        (fl_new slot_mem ⟨1, 0⟩ ⟨0, 0, NULL⟩).2.2 [1, 2, 3, 4, 5] 5).1 ⟨1, 0⟩
      (fl_push (fl_new slot_mem ⟨1, 0⟩ ⟨0, 0, NULL⟩).1
        (fl_new slot_mem ⟨1, 0⟩ ⟨0, 0, NULL⟩).2.2 [1, 2, 3, 4, 5] 5).2).2 = NULL ∧
    fl_size (fl_destroy_storage
      (fl_push (fl_new slot_mem ⟨1, 0⟩ ⟨0, 0, NULL⟩).1
        (fl_new slot_mem ⟨1, 0⟩ ⟨0, 0, NULL⟩).2.2 [1, 2, 3, 4, 5] 5).1 ⟨1, 0⟩
      (fl_push (fl_new slot_mem ⟨1, 0⟩ ⟨0, 0, NULL⟩).1
        (fl_new slot_mem ⟨1, 0⟩ ⟨0, 0, NULL⟩).2.2 [1, 2, 3, 4, 5] 5).2).2 = 0 ∧
    fl_used (fl_destroy_storage
      (fl_push (fl_new slot_mem ⟨1, 0⟩ ⟨0, 0, NULL⟩).1
        (fl_new slot_mem ⟨1, 0⟩ ⟨0, 0, NULL⟩).2.2 [1, 2, 3, 4, 5] 5).1 ⟨1, 0⟩
      (fl_push (fl_new slot_mem ⟨1, 0⟩ ⟨0, 0, NULL⟩).1
        (fl_new slot_mem ⟨1, 0⟩ ⟨0, 0, NULL⟩).2.2 [1, 2, 3, 4, 5] 5).2).2 = 5 := by
  decide

/-- C14. For a descriptor that is not `NULL`, `fl_destroy_storage` adds `data` to
the log of `fl_free` calls exactly when `data` is not `NULL` and the descriptor is
not local, and `fl_destroy` adds that and then the record pointer. Consequently,
for a descriptor made by `fl_use` over memory `mem` that lies in a block and is not
in the log, after any sequence of push / add / alloc / pop / reset / clear / resize
calls, `fl_destroy_storage` does not pass `mem` to `fl_free`, and neither does
`fl_destroy` (whose record pointer is not `mem`). -/
theorem fl_free_only_owned (h : Heap) (fl : fl_t) (rec : fl_s) (mem : Ptr) (size : Nat)
    (ops : List fl_op) (hfl : fl ≠ NULL) :
    (fl_destroy_storage h fl rec).1.freed =
      (if rec.data ≠ NULL ∧ fl_get_local rec = 0 then rec.data :: h.freed else h.freed) ∧
    (fl_destroy h fl rec).1.freed =
      fl :: (if rec.data ≠ NULL ∧ fl_get_local rec = 0 then rec.data :: h.freed
        else h.freed) ∧
    ((h.block mem.blk).isSome = true → mem ∉ h.freed →
      ∀ h1 fl1, fl_use h rec mem size = some (h1, fl1) →
        mem ∉ (fl_destroy_storage (fl_run h1 fl1 ops).1 fl (fl_run h1 fl1 ops).2).1.freed ∧
        (fl ≠ mem →
          mem ∉ (fl_destroy (fl_run h1 fl1 ops).1 fl (fl_run h1 fl1 ops).2).1.freed)) := by
  have hdes : ∀ (h2 : Heap) (rec2 : fl_s), (fl_destroy h2 fl rec2).1.freed =
      fl :: (fl_destroy_storage h2 fl rec2).1.freed := by
    intro h2 rec2
    unfold fl_destroy
    rw [if_pos hfl]
    exact fl_free_freed _ _
  refine ⟨fl_destroy_storage_freed h fl rec hfl, ?_, ?_⟩
  · rw [hdes, fl_destroy_storage_freed h fl rec hfl]
  · intro hsome hnot h1 fl1 huse
    obtain ⟨cs, hb⟩ := Option.isSome_iff_exists.mp hsome
    obtain ⟨h0, hlen⟩ := Heap.block_some hb
    have hinit : fl_apart mem h.freed h1 fl1 := by
      unfold fl_use at huse
      split_ifs at huse
      cases huse
      obtain ⟨_, hd, hsz⟩ := fl_init_fields rec size mem 1
      refine ⟨?_, h0, ?_, Or.inl ⟨?_, hd⟩⟩
      · unfold memset; rw [mem_write_freed]
      · unfold memset; rw [mem_write_blocks_length]; omega
      · unfold fl_get_local
        rw [fl_local_eq, hsz, fl_set_local_one_size]
        omega
    obtain ⟨hf, _, _, hd⟩ := fl_apart_run ops h1 fl1 hinit
    have hst : mem ∉ (fl_destroy_storage (fl_run h1 fl1 ops).1 fl
        (fl_run h1 fl1 ops).2).1.freed := by
      rw [fl_destroy_storage_freed _ fl _ hfl, hf]
      split_ifs with hc
      · intro hmem
        rcases List.mem_cons.mp hmem with heq | hin
        · rcases hd with ⟨hl1, _⟩ | ⟨_, hne⟩
          · exact hl1 hc.2
          · exact hne (by rw [← heq])
        · exact hnot hin
      · exact hnot
    refine ⟨hst, ?_⟩
    intro hne
    rw [hdes]
    intro hmem
    rcases List.mem_cons.mp hmem with heq | hin
    · exact hne heq.symm
    · exact hst hin

/-- Witness for C14: the 16-byte array of `small_mem` adopted, 20 bytes pushed in
two calls (the second one grows), then released through a record at `⟨9, 0⟩`. -/
theorem fl_free_only_owned_witness :
    (⟨1, 0⟩ : Ptr) ∉ (fl_destroy_storage
      (fl_run (memset small_mem ⟨1, 0⟩ 0 16) (fl_init ⟨0, 0, NULL⟩ 16 ⟨1, 0⟩ 1)
        [.push (List.replicate 10 1) 10, .push (List.replicate 10 2) 10]).1 ⟨9, 0⟩
      (fl_run (memset small_mem ⟨1, 0⟩ 0 16) (fl_init ⟨0, 0, NULL⟩ 16 ⟨1, 0⟩ 1)
        [.push (List.replicate 10 1) 10, .push (List.replicate 10 2) 10]).2).1.freed :=
  ((fl_free_only_owned small_mem ⟨9, 0⟩ ⟨0, 0, NULL⟩ ⟨1, 0⟩ 16
      [.push (List.replicate 10 1) 10, .push (List.replicate 10 2) 10] (by decide)).2.2
    (by decide) (by decide) _ _ rfl).1

/-- C15 (amended). The call `fl_destroy` always returns `NULL`, does nothing for a
`NULL` descriptor, and for every descriptor that is not `NULL` releases the storage
as `fl_destroy_storage` does and then passes the record pointer itself to
`fl_free`, whoever supplied the record. -/
theorem fl_destroy_spec (h : Heap) (fl : fl_t) (rec : fl_s) :
    (fl_destroy h fl rec).2.1 = NULL ∧
    (fl = NULL → fl_destroy h fl rec = (h, NULL, rec)) ∧
    (fl ≠ NULL →
      (fl_destroy h fl rec).1.freed = fl :: (fl_destroy_storage h fl rec).1.freed ∧
      (fl_destroy h fl rec).2.2 = (fl_destroy_storage h fl rec).2) := by
  refine ⟨?_, ?_, ?_⟩
  · unfold fl_destroy
    split_ifs <;> rfl
  · intro hn
    unfold fl_destroy
    rw [if_neg (by simp [hn])]
  · intro hn
    unfold fl_destroy
    rw [if_pos hn]
    exact ⟨fl_free_freed _ _, rfl⟩

/-- Witness for C15: a `NULL` descriptor, and the record `&fs` of `slot_mem` after
`fl_new( &fs )`. -/
theorem fl_destroy_spec_witness :
    fl_destroy slot_mem NULL ⟨0, 0, NULL⟩ = (slot_mem, NULL, ⟨0, 0, NULL⟩) ∧
    (fl_destroy (fl_new slot_mem ⟨1, 0⟩ ⟨0, 0, NULL⟩).1 ⟨1, 0⟩
      (fl_new slot_mem ⟨1, 0⟩ ⟨0, 0, NULL⟩).2.2).1.freed =
      ⟨1, 0⟩ :: (fl_destroy_storage (fl_new slot_mem ⟨1, 0⟩ ⟨0, 0, NULL⟩).1 ⟨1, 0⟩
        (fl_new slot_mem ⟨1, 0⟩ ⟨0, 0, NULL⟩).2.2).1.freed :=
  ⟨(fl_destroy_spec slot_mem NULL ⟨0, 0, NULL⟩).2.1 rfl,
   ((fl_destroy_spec (fl_new slot_mem ⟨1, 0⟩ ⟨0, 0, NULL⟩).1 ⟨1, 0⟩
      (fl_new slot_mem ⟨1, 0⟩ ⟨0, 0, NULL⟩).2.2).2.2 (by decide)).1⟩

/-- Counterexample to C15 as stated: `fl_new( &fs )` on the caller's record `&fs`
allocates only the buffer (block 2) and returns `&fs`; `fl_destroy` then passes
both the buffer and the caller's record `&fs` to `fl_free`. -/
theorem fl_destroy_frees_caller_record :
    (fl_new slot_mem ⟨1, 0⟩ ⟨0, 0, NULL⟩).2.1 = ⟨1, 0⟩ ∧
    fl_data (fl_new slot_mem ⟨1, 0⟩ ⟨0, 0, NULL⟩).2.2 = ⟨2, 0⟩ ∧
    (fl_destroy (fl_new slot_mem ⟨1, 0⟩ ⟨0, 0, NULL⟩).1 ⟨1, 0⟩
      (fl_new slot_mem ⟨1, 0⟩ ⟨0, 0, NULL⟩).2.2).1.freed = [⟨1, 0⟩, ⟨2, 0⟩] := by
  decide

/-! ## C16: the capacity after the growth step -/

theorem fl_size_resize_to (h : Heap) (fl : fl_s) (n : Nat) (hn : n < 2 ^ 64)
    (he : n % 2 = 0) : fl_size (fl_resize_to h fl n).2 = n := by
  unfold fl_size
  rw [fm_size_eq, fl_resize_to_size]
  omega

theorem fl_grow_size (h : Heap) (fl : fl_s) (size : Nat)
    (hc : fl_size fl < 2 ^ 63) (hu : fl.used ≤ fl_size fl)
    (htrig : add64 fl.used size > fl_size fl) :
    fl_size (fl_grow h fl size).2 = fl_legal_size (mul64 (fl_size fl) 2) := by
  have hm : mul64 (fm_size fl) 2 < 2 ^ 64 := by unfold mul64; omega
  rw [fl_grow_triggered h fl size hc hu htrig]
  exact fl_size_resize_to h fl _ (fl_legal_size_lt _ hm) (fl_legal_size_even _ hm)

/-- C16 (amended). With `used <= capacity < 2 ^ 63`, an `fl_add`, `fl_alloc` or (on a
descriptor with a buffer) `fl_push` for which `used + size > capacity` leaves the
capacity `fl_legal_size (2 * capacity)`. With capacity 0 that is
`fl_legal_size 0 = FL_MIN_SIZE = 2` for `fl_add` and `fl_alloc`; `fl_push` on a
descriptor without buffer first creates the default buffer, so an item of at most
16 bytes leaves capacity `fl_legal_size FL_DEFAULT_SIZE = 16`. -/
theorem fl_growth_capacity (h : Heap) (fl : fl_s) (item : List Byte) (size : Nat) :
    (fl_size fl < 2 ^ 63 → fl.used ≤ fl_size fl → add64 fl.used size > fl_size fl →
      fl_size (fl_add h fl item size).2 = fl_legal_size (mul64 (fl_size fl) 2) ∧
      fl_size (fl_alloc h fl size).2.1 = fl_legal_size (mul64 (fl_size fl) 2) ∧
      (fl.data ≠ NULL →
        fl_size (fl_push h fl item size).2 = fl_legal_size (mul64 (fl_size fl) 2))) ∧
    (fl_size fl = 0 → fl.used = 0 → 0 < size → size < 2 ^ 64 →
      fl_size (fl_add h fl item size).2 = FL_MIN_SIZE ∧
      fl_size (fl_alloc h fl size).2.1 = FL_MIN_SIZE ∧ FL_MIN_SIZE = 2) ∧
    (fl.data = NULL → size ≤ 16 →
      fl_size (fl_push h fl item size).2 = fl_legal_size FL_DEFAULT_SIZE ∧
      fl_legal_size FL_DEFAULT_SIZE = 16) := by
  have hgen : fl_size fl < 2 ^ 63 → fl.used ≤ fl_size fl → add64 fl.used size > fl_size fl →
      fl_size (fl_add h fl item size).2 = fl_legal_size (mul64 (fl_size fl) 2) ∧
      fl_size (fl_alloc h fl size).2.1 = fl_legal_size (mul64 (fl_size fl) 2) ∧
      (fl.data ≠ NULL →
        fl_size (fl_push h fl item size).2 = fl_legal_size (mul64 (fl_size fl) 2)) := by
    intro hc hu htrig
    have hg := fl_grow_size h fl size hc hu htrig
    have hadd : fl_size (fl_add h fl item size).2 = fl_legal_size (mul64 (fl_size fl) 2) := by
      rw [fl_add_eq, fl_size_with_used]
      exact hg
    refine ⟨hadd, ?_, ?_⟩
    · rw [fl_alloc_eq, fl_size_with_used]
      exact hg
    · intro hd
      rw [fl_push_eq, fl_push_new_of_data h fl hd]
      exact hadd
  have h16 : fl_legal_size FL_DEFAULT_SIZE = 16 :=
    fl_legal_size_small 16 (by norm_num) (by norm_num) (by norm_num)
  refine ⟨hgen, ?_, ?_⟩
  · intro hz hu hpos hlt
    have hl0 : fl_legal_size (mul64 (fl_size fl) 2) = FL_MIN_SIZE := by
      rw [hz]; decide
    have htrig : add64 fl.used size > fl_size fl := by
      rw [hz, hu]; unfold add64; omega
    obtain ⟨ha, hb, _⟩ := hgen (by rw [hz]; norm_num) (by rw [hz, hu]) htrig
    exact ⟨by rw [ha, hl0], by rw [hb, hl0], rfl⟩
  · intro hd hsz
    refine ⟨?_, h16⟩
    have hnew : fl_push_new h fl = fl_new_sized_init h fl FL_DEFAULT_SIZE := by
      unfold fl_push_new
      rw [if_pos hd]
    have hs : (fl_new_sized_init h fl FL_DEFAULT_SIZE).2.size = fl_legal_size FL_DEFAULT_SIZE :=
      fl_new_sized_init_size h fl FL_DEFAULT_SIZE (by unfold FL_DEFAULT_SIZE; norm_num)
    have hu0 : (fl_new_sized_init h fl FL_DEFAULT_SIZE).2.used = 0 := by
      unfold fl_new_sized_init
      exact (fl_init_fields _ _ _ _).1
    have hfm : fl_size (fl_new_sized_init h fl FL_DEFAULT_SIZE).2 = 16 := by
      unfold fl_size
      rw [fm_size_eq, hs, h16]
    rw [fl_push_eq, hnew, fl_add_eq, fl_size_with_used, fl_grow_fits _ _ _ (by rw [hu0, hfm]; omega),
      hfm, h16]

/-- Witness for C16: a full 16-byte buffer grows to 32 on one more byte; the empty
descriptor of `fl_new_descriptor` gets capacity 2 from `fl_add` and 16 from
`fl_push`. -/
theorem fl_growth_capacity_witness :
    fl_size (fl_add small_mem ⟨16, 16, ⟨1, 0⟩⟩ [1] 1).2 = fl_legal_size (mul64 16 2) ∧
    fl_size (fl_add Heap.empty ⟨0, 0, NULL⟩ [1] 1).2 = FL_MIN_SIZE ∧
    fl_size (fl_push Heap.empty ⟨0, 0, NULL⟩ [1] 1).2 = fl_legal_size FL_DEFAULT_SIZE :=
  ⟨((fl_growth_capacity small_mem ⟨16, 16, ⟨1, 0⟩⟩ [1] 1).1 (by decide) (by decide)
      (by decide)).1,
   ((fl_growth_capacity Heap.empty ⟨0, 0, NULL⟩ [1] 1).2.1 (by decide) rfl (by norm_num)
      (by norm_num)).1,
   ((fl_growth_capacity Heap.empty ⟨0, 0, NULL⟩ [1] 1).2.2 rfl (by norm_num)).1⟩

/-- Counterexample to C16 as stated: on the descriptor of `fl_new_descriptor`
(capacity 0, no buffer) an `fl_add` or `fl_alloc` of one byte leaves capacity 2,
not `fl_legal_size FL_DEFAULT_SIZE = 16`. -/
theorem fl_add_from_zero_capacity :
    fl_size (fl_new_descriptor slot_mem ⟨1, 0⟩ ⟨0, 0, NULL⟩).2.2 = 0 ∧
    fl_size (fl_add (fl_new_descriptor slot_mem ⟨1, 0⟩ ⟨0, 0, NULL⟩).1
      (fl_new_descriptor slot_mem ⟨1, 0⟩ ⟨0, 0, NULL⟩).2.2 [1] 1).2 = 2 ∧
    fl_size (fl_alloc (fl_new_descriptor slot_mem ⟨1, 0⟩ ⟨0, 0, NULL⟩).1
      (fl_new_descriptor slot_mem ⟨1, 0⟩ ⟨0, 0, NULL⟩).2.2 1).2.1 = 2 ∧
    fl_legal_size FL_DEFAULT_SIZE = 16 := by
  decide

/-! ## C17: when creation returns `NULL` -/

theorem fl_new_sized_ptr (h : Heap) (fl : fl_t) (rec : fl_s) (size : Nat) :
    (fl_new_sized h fl rec size).2.1 = (fl_allocate_descriptor_if h fl).2 := by
  unfold fl_new_sized
  simp only
  split_ifs <;> rfl

theorem fl_malloc_null_iff (h : Heap) (n : Nat) :
    (fl_malloc h n).2 = NULL ↔ h.fails.head? = some true := by
  unfold fl_malloc
  cases hf : h.fails with
  | nil => simp [NULL]
  | cons b rest =>
    cases b
    · simp [NULL]
    · simp

theorem fl_allocate_descriptor_if_null_iff (h : Heap) (fl : fl_t) :
    (fl_allocate_descriptor_if h fl).2 = NULL ↔ fl = NULL ∧ h.fails.head? = some true := by
  unfold fl_allocate_descriptor_if
  split_ifs with hn
  · rw [fl_malloc_null_iff]
    exact ⟨fun hh => ⟨hn, hh⟩, fun hh => hh.2⟩
  · exact ⟨fun hh => absurd hh hn, fun hh => absurd hh.1 hn⟩

/-- The calls `fl_new_sized` and `fl_new` return `NULL` exactly when the slot is
`NULL` and the allocation of the descriptor record (the next allocation request)
fails; with a slot supplied by the caller they return that slot, whatever the
allocation of the buffer does. -/
theorem fl_new_null_iff (h : Heap) (fl : fl_t) (rec : fl_s) (size : Nat) :
    ((fl_new_sized h fl rec size).2.1 = NULL ↔ fl = NULL ∧ h.fails.head? = some true) ∧
    ((fl_new h fl rec).2.1 = NULL ↔ fl = NULL ∧ h.fails.head? = some true) ∧
    (fl ≠ NULL → (fl_new_sized h fl rec size).2.1 = fl ∧ (fl_new h fl rec).2.1 = fl) := by
  have hptr : ∀ sz, fl ≠ NULL → (fl_new_sized h fl rec sz).2.1 = fl := by
    intro sz hn
    rw [fl_new_sized_ptr]
    unfold fl_allocate_descriptor_if
    rw [if_neg hn]
  refine ⟨?_, ?_, fun hn => ⟨hptr size hn, hptr _ hn⟩⟩
  · rw [fl_new_sized_ptr]
    exact fl_allocate_descriptor_if_null_iff h fl
  · unfold fl_new
    rw [fl_new_sized_ptr]
    exact fl_allocate_descriptor_if_null_iff h fl

/-- C17 (code run at the failing input). With the caller's record `&fs` and an
allocator whose next request fails, `fl_new` performs one allocation (the buffer),
it fails, and the result is not `NULL`: it is `&fs`, holding capacity 16 and no
buffer. -/
theorem fl_new_buffer_failure_not_null :
    (fl_new ⟨[some (List.replicate 24 9)], [true], 0, [], false⟩ ⟨1, 0⟩ ⟨0, 0, NULL⟩)
      = (⟨[some (List.replicate 24 9)], [], 0, [], false⟩, ⟨1, 0⟩, ⟨16, 0, NULL⟩) ∧
    (⟨1, 0⟩ : Ptr) ≠ NULL ∧ fl_size ⟨16, 0, NULL⟩ = 16 := by
  decide

/-! ## Growth of an owned buffer keeps the stored bytes -/

theorem mem_read_start (h : Heap) (p : Ptr) (n : Nat) (cs : List Byte)
    (hb : h.block p.blk = some cs) (hoff : p.off = 0) (hn : n ≤ cs.length) :
    mem_read h p n = some (cs.take n) := by
  unfold mem_read
  split_ifs with h0
  · rw [h0]; rfl
  · rw [hb]
    simp only
    rw [if_pos (by omega), hoff]
    rfl

theorem take_splice_before (cs bs : List Byte) (off n : Nat) (hn : n ≤ off) :
    (splice cs off bs).take n = cs.take n := by
  apply List.ext_getElem?
  intro j
  rw [List.getElem?_take, List.getElem?_take, splice_getElem?]
  by_cases hj : j < n
  · simp only [hj, if_true]
    by_cases hlen : j < cs.length
    · rw [if_pos hlen, if_pos (by omega)]
    · rw [if_neg hlen, List.getElem?_eq_none (by omega)]
  · simp only [hj, if_false]

/-- When the allocation succeeds, `fl_resize_to` on a descriptor that owns its block
keeps the first `used` bytes of the buffer (the `fl_realloc` branch). -/
theorem fl_resize_to_keeps_data (h : Heap) (fl : fl_s) (n : Nat) (cs : List Byte)
    (hok : h.noFail) (hl : fl_get_local fl = 0)
    (hb : h.block fl.data.blk = some cs) (hoff : fl.data.off = 0)
    (hu : fl.used ≤ fm_size fl) (hcap : fm_size fl ≤ cs.length) (hle : fl.used ≤ n) :
    mem_read (fl_resize_to h fl n).1 (fl_resize_to h fl n).2.data fl.used =
        mem_read h fl.data fl.used ∧
      mem_read h fl.data fl.used = some (cs.take fl.used) := by
  obtain ⟨h0, hlen⟩ := Heap.block_some hb
  have hold := mem_read_start h fl.data fl.used cs hb hoff (by omega)
  have hnew := Heap.block_setBlock_fails h fl.data.blk
    (some (cs.take n ++ List.replicate (n - cs.length) h.junk)) h.fails.tail h0 hlen
  have hlen2 : (cs.take n ++ List.replicate (n - cs.length) h.junk).length = n := by
    simp; omega
  have htake : (cs.take n ++ List.replicate (n - cs.length) h.junk).take fl.used
      = cs.take fl.used := by
    rw [List.take_append_of_le_length (by simp; omega), List.take_take]
    congr 1
    omega
  refine ⟨?_, hold⟩
  rw [hold, fl_resize_to_owned_eq h fl n cs hok hl hb hoff, fl_set_local_data]
  simp only
  split_ifs with hgt
  · have hw := (mem_write_block _ (fl.data.add (fm_size fl))
      (List.replicate (sub64 n (fm_size fl)) 0) _ hnew fl.data.blk).trans (if_pos rfl)
    unfold memset
    rw [mem_read_start _ fl.data fl.used _ hw hoff (by rw [splice_length, hlen2]; exact hle),
      take_splice_before _ _ _ _ (by simp only [Ptr.add, hoff]; omega), htake]
  · rw [mem_read_start _ fl.data fl.used _ hnew hoff (by rw [hlen2]; exact hle), htake]

/-! ## C18, C19: growth run on inputs where it loses or overruns the data -/

/-- C18 (code run at the failing input). A local descriptor over a 16-byte array
holds the bytes 1..10; the next `fl_push` of ten bytes triggers growth, after which
the descriptor is not local, has capacity 32 and `used = 20`, and the first ten
bytes of its buffer are zero: the stored bytes were not carried over. -/
theorem fl_local_growth_loses_data :
    local_ten.map (fun q => (fl_get_local q.2, fl_used q.2, fl_size q.2))
      = some (1, 10, 16) ∧
    local_ten.map (fun q => mem_read q.1 (fl_data q.2) 10)
      = some (some [1, 2, 3, 4, 5, 6, 7, 8, 9, 10]) ∧
    local_grown.map (fun t => (fl_get_local t.2, fl_used t.2, fl_size t.2, t.1.fault))
      = some (0, 20, 32, false) ∧
    local_grown.map (fun t => mem_read t.1 (fl_data t.2) 10)
      = some (some [0, 0, 0, 0, 0, 0, 0, 0, 0, 0]) := by
  decide

set_option maxRecDepth 100000 in
/-- C19 (code run at the failing input). A buffer of capacity 2048 holding 2048
bytes gets an item of 2048 bytes, no larger than the capacity: the growth step
asks for 4096 and gets `fl_legal_size 4096 = 4072`, the copy leaves the block and
`used + size = 4096 > 4072 = fl_size`. -/
theorem fl_push_half_page_overflows :
    (fl_used half_page.2, fl_size half_page.2, half_page.1.fault) = (2048, 2048, false) ∧
    fl_legal_size (mul64 2048 2) = 4072 ∧
    (fl_used half_page_grown.2, fl_size half_page_grown.2, half_page_grown.1.fault)
      = (4096, 4072, true) := by
  decide!

/-! ## C20: a triggered growth step makes the capacity larger -/

theorem fl_legal_size_double_gt (cap : Nat) (he : cap % 2 = 0) (h2 : 2 ≤ cap)
    (hc : cap < 2 ^ 63) : cap < fl_legal_size (mul64 cap 2) := by
  have hc2 : cap < 9223372036854775808 := by norm_num at hc; exact hc
  have hm : mul64 cap 2 = 2 * cap := by unfold mul64; omega
  rw [hm, fl_legal_size_norm]
  have hnorm : fl_norm_size (2 * cap) = 2 * cap := fl_norm_size_of_even _ (by omega) (by omega)
  rw [hnorm, fl_align_size_eq]
  split_ifs <;> omega

/-- C20. For every even `c` with `2 <= c < 2 ^ 62`, `fl_legal_size (2 * c) > c`; hence
for every descriptor with `used <= capacity` and `2 <= capacity < 2 ^ 63`, an
`fl_add`, `fl_alloc` or (on a descriptor with a buffer) `fl_push` that triggers
the growth step leaves `fl_size` strictly greater than before. -/
theorem fl_growth_progress (h : Heap) (fl : fl_s) (item : List Byte) (size : Nat) :
    (∀ c : Nat, c % 2 = 0 → 2 ≤ c → c < 2 ^ 62 → c < fl_legal_size (2 * c)) ∧
    (fl.used ≤ fl_size fl → 2 ≤ fl_size fl → fl_size fl < 2 ^ 63 →
      add64 fl.used size > fl_size fl →
      fl_size fl < fl_size (fl_add h fl item size).2 ∧
      fl_size fl < fl_size (fl_alloc h fl size).2.1 ∧
      (fl.data ≠ NULL → fl_size fl < fl_size (fl_push h fl item size).2)) := by
  constructor
  · intro c he h2 hc
    have hm : mul64 c 2 = 2 * c := by unfold mul64; omega
    have := fl_legal_size_double_gt c he h2 (by omega)
    rw [hm] at this
    exact this
  · intro hu h2 hc htrig
    have hgt := fl_legal_size_double_gt (fl_size fl) (fm_size_even fl) h2 hc
    have hg := fl_grow_size h fl size hc hu htrig
    have hadd : fl_size fl < fl_size (fl_add h fl item size).2 := by
      have heq : fl_size (fl_add h fl item size).2 = fl_size (fl_grow h fl size).2 := rfl
      rw [heq, hg]
      exact hgt
    refine ⟨hadd, ?_, ?_⟩
    · have heq : fl_size (fl_alloc h fl size).2.1 = fl_size (fl_grow h fl size).2 := rfl
      rw [heq, hg]
      exact hgt
    · intro hd
      rw [fl_push_eq, fl_push_new_of_data h fl hd]
      exact hadd

/-- Witness for C20: the capacity 2048, whose double is cut to 4072 by the page
policy, and a full 16-byte buffer that gets one more byte. -/
theorem fl_growth_progress_witness :
    (2048 : Nat) < fl_legal_size (2 * 2048) ∧
    fl_size (⟨16, 16, ⟨1, 0⟩⟩ : fl_s) < fl_size (fl_add small_mem ⟨16, 16, ⟨1, 0⟩⟩ [1] 1).2 :=
  ⟨(fl_growth_progress Heap.empty ⟨0, 0, NULL⟩ [] 0).1 2048 (by norm_num) (by norm_num)
      (by norm_num),
   ((fl_growth_progress small_mem ⟨16, 16, ⟨1, 0⟩⟩ [1] 1).2 (by decide) (by decide)
      (by decide) (by decide)).1⟩

end Flexer
